import Mathlib

/-!
# zfs-auto-unlock: per-pool unlock orchestration

A shallow embedding of `tools/zfs-auto-unlock/main.go`.

The program is a sequence of calls into the operating system (external
commands, `os.Stat`, `os.CreateTemp`, `os.Remove`).  The embedding threads an
explicit `World` through every function.  The answers of the operating system
come from an arbitrary environment `Env`, a function of the whole world so far
and of the call being made, so every theorem quantified over `Env` covers
every behaviour of the external tools, also one that changes from call to
call.  Each call is appended to `World.trace` together with the answer the
program saw.  Log lines are not modelled.

Time is a logical clock: every answer of the environment carries the duration
the call takes, and a `Context` carries the deadline that
`context.WithTimeout` attached to it.  A command run under a context is refused
when the deadline has passed and killed when it is still running at the
deadline; both give the caller an error.

`World.files` holds the temporary key files.  Only a successful
`os.CreateTemp` and a successful `os.Remove` change it; whether either
succeeds is up to the environment.  External commands are taken not to create
or delete temporary key files of this program.

The standard library's `filepath.Dir` is a parameter of the environment;
`strings.TrimSpace` and `strings.Split` on a newline are defined here.
-/

set_option autoImplicit false

namespace ZfsAutoUnlock

/-! ## Strings -/

/-- Go `unicode.IsSpace`: the code points with the Unicode White_Space property. -/
def isSpace (c : Char) : Bool :=
  let n := c.toNat
  (9 ≤ n && n ≤ 13) || n == 0x20 || n == 0x85 || n == 0xA0 || n == 0x1680 ||
  (0x2000 ≤ n && n ≤ 0x200A) || n == 0x2028 || n == 0x2029 || n == 0x202F ||
  n == 0x205F || n == 0x3000

/-- Go `strings.TrimSpace` on the characters of a string: leading and trailing
white space removed. -/
def trimChars (l : List Char) : List Char :=
  ((l.dropWhile isSpace).reverse.dropWhile isSpace).reverse

/-- Go `strings.Split(s, "\n")` on the characters of a string.  The result is
never empty: the empty string splits into one empty line. -/
def splitLines : List Char → List (List Char)
  | [] => [[]]
  | c :: cs =>
    if c = '\n' then [] :: splitLines cs
    else
      match splitLines cs with
      | [] => [[c]]
      | l :: ls => (c :: l) :: ls

/-- Go `strings.TrimSpace`. -/
def trimSpace (s : String) : String := ⟨trimChars s.data⟩

/-! ## Configuration (lines 16-24) -/

/-- Go `PoolConfig`. -/
structure PoolConfig where
  Name : String
  EncryptedKeyFile : String
  deriving DecidableEq, Repr

/-- Go `Config`. -/
structure Config where
  IdentityFiles : List String
  Pools : List PoolConfig
  deriving DecidableEq, Repr

/-! ## The operating system -/

/-- A call the program makes.  The first four are calls into the operating
system; the last two are markers written to the trace when `tryIdentity` and
`unlockPoolWithTimeout` are entered, so that the trace also records which
identities and pools those functions were called with. -/
inductive Call where
  /-- Go `exec.CommandContext(ctx, name, args...)` followed by `Run` or `Output`. -/
  | exec (name : String) (args : List String)
  /-- Go `os.Stat(path)`. -/
  | stat (path : String)
  /-- Go `os.CreateTemp(dir, pattern)`. -/
  | createTemp (dir pattern : String)
  /-- Go `tmp.Close()` and `os.Remove(path)`. -/
  | remove (path : String)
  /-- Entry of `tryIdentity(ctx, pool, identity)`. -/
  | enterTryIdentity (pool : PoolConfig) (identity : String)
  /-- Entry of `unlockPoolWithTimeout(cfg, pool, timeout)`. -/
  | enterUnlockPool (pool : PoolConfig)
  deriving DecidableEq, Repr

/-- One entry of the trace: the call, what the program saw of it, and the
times on the clock at which the call was made and at which it returned.
`cancelled` is set when the context deadline refused or killed the command. -/
structure Event where
  call : Call
  err : Option String
  out : String
  cancelled : Bool
  started : Int
  ended : Int
  deriving DecidableEq, Repr

/-- The state of the world as far as the program can tell. -/
structure World where
  /-- Every call made so far, oldest first. -/
  trace : List Event
  /-- Nanoseconds elapsed. -/
  clock : Int
  /-- The temporary key files that exist under `/run`. -/
  files : List String
  deriving DecidableEq

/-- The answer of the operating system to a call: an error (`none` is Go
`nil`), the output (standard output of a command, the path `os.CreateTemp`
picked), and the time the call takes in nanoseconds. -/
structure Resp where
  err : Option String
  out : String
  dur : Nat

/-- The environment.  `sys` answers every call, as a function of the world at
the time of the call.  `filepathDir` is the standard library's `filepath.Dir`. -/
structure Env where
  sys : World → Call → Resp
  filepathDir : String → String

/-- Go `context.Context` as the program uses it: a deadline. -/
structure Context where
  deadline : Int

/-- Go `error`: `none` is `nil`, `some msg` an error with that message. -/
abbrev Error := Option String

/-- The event with the times at which its call was made and returned. -/
def Event.stamp (e : Event) (s t : Int) : Event :=
  { e with started := s, ended := t }

/-- Append an event to the trace, made now and returning at time `t`, and set
the clock to `t`. -/
def World.record (w : World) (e : Event) (t : Int) : World :=
  { w with trace := w.trace ++ [e.stamp w.clock t], clock := t }

/-- Go `exec.CommandContext(ctx, name, args...)` run to completion.  A command
started when the deadline has passed is refused; one still running at the
deadline is killed; otherwise the command's own result is returned. -/
def runProcess (env : Env) (ctx : Context) (name : String) (args : List String)
    (w : World) : (String × Error) × World :=
  let c := Call.exec name args
  if ctx.deadline ≤ w.clock then
    (("", some "context deadline exceeded"),
      w.record ⟨c, some "context deadline exceeded", "", true, 0, 0⟩ w.clock)
  else
    let r := env.sys w c
    if ctx.deadline < w.clock + r.dur then
      (("", some "signal: killed"), w.record ⟨c, some "signal: killed", "", true, 0, 0⟩ ctx.deadline)
    else
      ((r.out, r.err), w.record ⟨c, r.err, r.out, false, 0, 0⟩ (w.clock + r.dur))

/-- Lines 26-29. -/
def fileExists (env : Env) (path : String) (w : World) : Bool × World :=
  let r := env.sys w (.stat path)
  (r.err.isNone, w.record ⟨.stat path, r.err, "", false, 0, 0⟩ (w.clock + r.dur))

/-- Lines 31-36. -/
def runCmd (env : Env) (ctx : Context) (name : String) (args : List String)
    (w : World) : Error × World :=
  let r := runProcess env ctx name args w
  (r.1.2, r.2)

/-- Lines 38-45. -/
def runCmdOutput (env : Env) (ctx : Context) (name : String) (args : List String)
    (w : World) : (String × Error) × World :=
  let r := runProcess env ctx name args w
  match r.1.2 with
  | some e => (("", some e), r.2)
  | none => ((r.1.1, none), r.2)

/-- Go `os.CreateTemp(dir, pattern)`: creates a file that did not exist before
(it is opened with `O_EXCL`) and returns its path, or fails. -/
def createTemp (env : Env) (dir pattern : String) (w : World) : Except String String × World :=
  let c := Call.createTemp dir pattern
  let r := env.sys w c
  match r.err with
  | some e => (.error e, w.record ⟨c, some e, "", false, 0, 0⟩ (w.clock + r.dur))
  | none =>
    if r.out ∈ w.files then
      (.error "file exists", w.record ⟨c, some "file exists", "", false, 0, 0⟩ (w.clock + r.dur))
    else
      (.ok r.out,
        { w.record ⟨c, none, r.out, false, 0, 0⟩ (w.clock + r.dur) with files := r.out :: w.files })

/-- Go `tmp.Close()` and `os.Remove(path)`, the result ignored (lines 92-95).
When the unlink succeeds the path is no longer among the files; when it fails
the file stays.  The caller sees neither. -/
def removeTemp (env : Env) (path : String) (w : World) : World :=
  let c := Call.remove path
  let r := env.sys w c
  match r.err with
  | none =>
    { w.record ⟨c, none, "", false, 0, 0⟩ (w.clock + r.dur) with
      files := w.files.filter (· ≠ path) }
  | some e => w.record ⟨c, some e, "", false, 0, 0⟩ (w.clock + r.dur)

/-! ## The program -/

/-- Lines 47-62. -/
def ensurePoolImported (env : Env) (ctx : Context) (pool : String) (w : World) : Error × World :=
  let r := runCmdOutput env ctx "zpool" ["list", "-H", "-o", "name"] w
  match r.1.2 with
  | some e => (some ("zpool list failed: " ++ e), r.2)
  | none =>
    if (splitLines (trimChars r.1.1.data)).any (fun line => trimChars line == pool.data) then
      (none, r.2)
    else
      let r2 := runCmd env ctx "zpool" ["import", "-N", pool] r.2
      match r2.1 with
      | some e => (some ("zpool import -N " ++ pool ++ " failed: " ++ e), r2.2)
      | none => (none, r2.2)

/-- Lines 64-76. -/
def ensureKeystoreMounted (env : Env) (ctx : Context) (pool keyFile : String)
    (w : World) : Error × World :=
  let ds := pool ++ "/keystore"
  let r := runCmd env ctx "zfs" ["mount", ds] w
  let dir := env.filepathDir keyFile
  let r2 := fileExists env dir r.2
  if !r2.1 then
    (some ("keystore mountpoint " ++ dir ++ " does not exist after zfs mount"), r2.2)
  else (none, r2.2)

/-- Lines 78-84. -/
def getKeyStatus (env : Env) (ctx : Context) (pool : String) (w : World) :
    (String × Error) × World :=
  let r := runCmdOutput env ctx "zfs" ["get", "-H", "-o", "value", "keystatus", pool] w
  match r.1.2 with
  | some e => (("unavailable", some e), r.2)
  | none => ((trimSpace r.1.1, none), r.2)

/-- Lines 86-118.  The deferred close-and-remove runs on every return after
the temporary file was created. -/
def tryIdentity (env : Env) (ctx : Context) (pool : PoolConfig) (identity : String)
    (w : World) : Error × World :=
  let w0 := w.record ⟨.enterTryIdentity pool identity, none, "", false, 0, 0⟩ w.clock
  let t := createTemp env "/run" ("zfs-key-" ++ pool.Name ++ "-") w0
  match t.1 with
  | .error e => (some ("create temp key file: " ++ e), t.2)
  | .ok tmpPath =>
    let body : Error × World :=
      let d := runProcess env ctx "age" ["--decrypt", "-i", identity, pool.EncryptedKeyFile] t.2
      match d.1.2 with
      | some e => (some ("age decrypt failed: " ++ e), d.2)
      | none =>
        let l := runCmd env ctx "zfs" ["load-key", "-L", "file://" ++ tmpPath, pool.Name] d.2
        match l.1 with
        | some e => (some ("zfs load-key failed: " ++ e), l.2)
        | none => (none, l.2)
    (body.1, removeTemp env tmpPath body.2)

/-- The `for` loop of `unlockPoolOnce` with the `return` after it
(lines 141-162). -/
def identityLoop (env : Env) (ctx : Context) (pool : PoolConfig) :
    List String → World → Error × World
  | [], w => (some ("no identity could unlock pool " ++ pool.Name), w)
  | id :: rest, w =>
    if id = "" then identityLoop env ctx pool rest w
    else
      let x := fileExists env id w
      if !x.1 then identityLoop env ctx pool rest x.2
      else
        let t := tryIdentity env ctx pool id x.2
        match t.1 with
        | some _ => identityLoop env ctx pool rest t.2
        | none =>
          let s := getKeyStatus env ctx pool.Name t.2
          if s.1.2 = none ∧ s.1.1 = "available" then (none, s.2)
          else identityLoop env ctx pool rest s.2

/-- Lines 120-163. -/
def unlockPoolOnce (env : Env) (ctx : Context) (cfg : Config) (pool : PoolConfig)
    (w : World) : Error × World :=
  let i := ensurePoolImported env ctx pool.Name w
  match i.1 with
  | some e => (some e, i.2)
  | none =>
    let k := ensureKeystoreMounted env ctx pool.Name pool.EncryptedKeyFile i.2
    match k.1 with
    | some e => (some e, k.2)
    | none =>
      let s := getKeyStatus env ctx pool.Name k.2
      if s.1.2 = none ∧ s.1.1 = "available" then (none, s.2)
      else
        let x := fileExists env pool.EncryptedKeyFile s.2
        if !x.1 then
          (some ("encrypted key file " ++ pool.EncryptedKeyFile ++ " not found"), x.2)
        else identityLoop env ctx pool cfg.IdentityFiles x.2

/-- Lines 165-169: `context.WithTimeout(context.Background(), timeout)`. -/
def unlockPoolWithTimeout (env : Env) (cfg : Config) (pool : PoolConfig) (timeout : Int)
    (w : World) : Error × World :=
  let w0 := w.record ⟨.enterUnlockPool pool, none, "", false, 0, 0⟩ w.clock
  let ctx : Context := ⟨w0.clock + timeout⟩
  unlockPoolOnce env ctx cfg pool w0

/-- The loop over the pools (lines 194-204), from a given value of `hadErr`. -/
def poolLoop (env : Env) (cfg : Config) (timeout : Int) :
    List PoolConfig → Bool → World → Bool × World
  | [], hadErr, w => (hadErr, w)
  | p :: ps, hadErr, w =>
    if p.Name = "" ∨ p.EncryptedKeyFile = "" then poolLoop env cfg timeout ps hadErr w
    else
      let r := unlockPoolWithTimeout env cfg p timeout w
      match r.1 with
      | some _ => poolLoop env cfg timeout ps true r.2
      | none => poolLoop env cfg timeout ps hadErr r.2

/-- Sixty seconds in nanoseconds (`60*time.Second`). -/
def sixtySeconds : Int := 60 * 1000000000

/-- The fleet driver proper, the part of `main` after the configuration checks
(lines 194-218): the loop over the pools, the exit with status 1 when `hadErr`
is set, and otherwise the final `zfs mount -a` under a fresh sixty-second
deadline, whose failure is only logged.  The value returned is the exit code
of the process. -/
def fleetDriver (env : Env) (cfg : Config) (timeout : Int) (w : World) : Nat × World :=
  let r := poolLoop env cfg timeout cfg.Pools false w
  if r.1 then (1, r.2)
  else
    let ctx : Context := ⟨r.2.clock + sixtySeconds⟩
    let m := runCmd env ctx "zfs" ["mount", "-a"] r.2
    (0, m.2)

/-- Lines 171-218, from the decoded configuration on.  The argument `loaded` is
the result of opening and decoding the configuration file (`none` when either
failed, which ends the process through `log.Fatalf`, as do a configuration
without pools and one without identity files); the value returned is the exit
code of the process. -/
def main (env : Env) (loaded : Option Config) (timeout : Int) (w : World) : Nat × World :=
  match loaded with
  | none => (1, w)
  | some cfg =>
    if cfg.Pools.length = 0 then (1, w)
    else if cfg.IdentityFiles.length = 0 then (1, w)
    else fleetDriver env cfg timeout w

/-! ## Events of a run -/

/-- The events a run added to the trace, given the world before and after. -/
def newEvents (w w' : World) : List Event := w'.trace.drop w.trace.length

/-- The identities `tryIdentity` was called with, in order of the calls. -/
def triedIdentities (evs : List Event) : List String :=
  evs.filterMap fun e =>
    match e.call with
    | .enterTryIdentity _ identity => some identity
    | _ => none

/-- The pools `unlockPoolWithTimeout` was called with, in order of the calls. -/
def orchestratedPools (evs : List Event) : List PoolConfig :=
  evs.filterMap fun e =>
    match e.call with
    | .enterUnlockPool p => some p
    | _ => none

/-- The marker `tryIdentity` writes on entry. -/
def trialMarker (pool : PoolConfig) (identity : String) : Event :=
  ⟨.enterTryIdentity pool identity, none, "", false, 0, 0⟩

/-- The marker `unlockPoolWithTimeout` writes on entry. -/
def poolMarker (pool : PoolConfig) : Event := ⟨.enterUnlockPool pool, none, "", false, 0, 0⟩

/-- The event is a decryption: a run of `age`. -/
def Event.isDecrypt (e : Event) : Bool :=
  match e.call with
  | .exec name _ => name == "age"
  | _ => false

/-- The event is the removal of a temporary key file. -/
def Event.isRemove (e : Event) : Bool :=
  match e.call with
  | .remove _ => true
  | _ => false

/-- The event is a `zfs load-key`. -/
def Event.isLoadKey (e : Event) : Bool :=
  match e.call with
  | .exec name args => name == "zfs" && args.head? == some "load-key"
  | _ => false

/-- The event is a step inside `tryIdentity`: the creation or removal of the
temporary key file, a decryption or a load-key. -/
def Event.isTrialStep (e : Event) : Bool :=
  match e.call with
  | .createTemp _ _ => true
  | .remove _ => true
  | _ => e.isDecrypt || e.isLoadKey

/-- The event belongs to an identity trial: the entry of `tryIdentity`, the
creation or removal of the temporary key file, a decryption or a load-key. -/
def Event.isTrial (e : Event) : Bool :=
  match e.call with
  | .enterTryIdentity _ _ => true
  | .createTemp _ _ => true
  | .remove _ => true
  | _ => e.isDecrypt || e.isLoadKey

/-- The event is an external command. -/
def Event.isExec (e : Event) : Bool :=
  match e.call with
  | .exec _ _ => true
  | _ => false

/-- The command respected the deadline: either it was not cancelled and had
returned by the deadline, or it was cancelled, returned an error, and did not
run beyond the deadline (a command made after the deadline did not run at
all). -/
def Event.withinDeadline (e : Event) (deadline : Int) : Prop :=
  (e.cancelled = false ∧ e.ended ≤ deadline) ∨
  (e.cancelled = true ∧ e.err ≠ none ∧ e.ended = max e.started deadline)

instance (e : Event) (deadline : Int) : Decidable (e.withinDeadline deadline) := by
  unfold Event.withinDeadline; exact inferInstance

/-- The event is the final mount pass, `zfs mount -a`. -/
def Event.isMountAll (e : Event) : Bool :=
  match e.call with
  | .exec name args => name == "zfs" && args == ["mount", "-a"]
  | _ => false

/-- The event is a step of an orchestration: neither the entry marker of
`unlockPoolWithTimeout` nor the final mount pass. -/
def Event.isPoolStep (e : Event) : Bool :=
  match e.call with
  | .enterUnlockPool _ => false
  | _ => !e.isMountAll

/-- The event is a key-status probe of `pool` that returned `available`
without error. -/
def Event.confirms (e : Event) (pool : String) : Prop :=
  e.call = .exec "zfs" ["get", "-H", "-o", "value", "keystatus", pool] ∧
  e.err = none ∧ e.cancelled = false ∧ trimSpace e.out = "available"

instance (e : Event) (pool : String) : Decidable (e.confirms pool) := by
  unfold Event.confirms; exact inferInstance

/-- The paths of the `os.Stat` calls among the events, in order. -/
def statPaths (evs : List Event) : List String :=
  evs.filterMap fun e =>
    match e.call with
    | .stat p => some p
    | _ => none

/-- The paths of the `os.Stat` calls that found the file, in order. -/
def existingPaths (evs : List Event) : List String :=
  evs.filterMap fun e =>
    match e.call with
    | .stat p => if e.err.isNone then some p else none
    | _ => none

/-- The calls of the steps before the identity loop: pool list, pool import,
keystore mount, the stat of the keystore directory, the key-status probe, the
stat of the encrypted key file. -/
def readinessCalls (env : Env) (pool : PoolConfig) : List Call :=
  [.exec "zpool" ["list", "-H", "-o", "name"],
   .exec "zpool" ["import", "-N", pool.Name],
   .exec "zfs" ["mount", pool.Name ++ "/keystore"],
   .stat (env.filepathDir pool.EncryptedKeyFile),
   .exec "zfs" ["get", "-H", "-o", "value", "keystatus", pool.Name],
   .stat pool.EncryptedKeyFile]

/-- The event is one of the readiness calls. -/
def IsReadiness (env : Env) (pool : PoolConfig) (e : Event) : Prop :=
  e.call ∈ readinessCalls env pool

/-! ## Vocabulary of the theorems -/

/-- The run from `w` to `w'` only added events, and each added event
satisfies `P`. -/
def Adds (P : Event → Prop) (w w' : World) : Prop :=
  ∃ evs, w'.trace = w.trace ++ evs ∧ ∀ e ∈ evs, P e

/-- The run from `w` to `w'` only added events, the clock did not go back, and
when one of the added events was cancelled the deadline has passed in `w'`. -/
def Tick (ctx : Context) (w w' : World) : Prop :=
  ∃ evs, w'.trace = w.trace ++ evs ∧ w.clock ≤ w'.clock ∧
    ((∃ e ∈ evs, e.cancelled = true) → ctx.deadline ≤ w'.clock)

/-- The run from `w` to `w'` made no call of `tryIdentity`, no decryption and
no load-key. -/
def NoTrial (w w' : World) : Prop :=
  triedIdentities (newEvents w w') = [] ∧
    ∀ e ∈ newEvents w w', e.isDecrypt = false ∧ e.isLoadKey = false

/-- The world in which the identity loop of `unlockPoolOnce` starts, `none`
when one of the returns before the loop is taken (lines 123-139). -/
def loopEntry (env : Env) (ctx : Context) (pool : PoolConfig) (w : World) : Option World :=
  let i := ensurePoolImported env ctx pool.Name w
  match i.1 with
  | some _ => none
  | none =>
    let k := ensureKeystoreMounted env ctx pool.Name pool.EncryptedKeyFile i.2
    match k.1 with
    | some _ => none
    | none =>
      let s := getKeyStatus env ctx pool.Name k.2
      if s.1.2 = none ∧ s.1.1 = "available" then none
      else
        let x := fileExists env pool.EncryptedKeyFile s.2
        if !x.1 then none else some x.2

/-- The event is a key-status probe of `pool`. -/
def Event.isProbe (e : Event) (pool : String) : Prop :=
  e.call = .exec "zfs" ["get", "-H", "-o", "value", "keystatus", pool]

instance (e : Event) (pool : String) : Decidable (e.isProbe pool) := by
  unfold Event.isProbe; exact inferInstance

/-- The events end with a trial that succeeded: a decryption that returned no
error, a load-key that returned no error, and the removal of the temporary key
file. -/
def EndsWithLoadedKey (L : List Event) : Prop :=
  ∃ L0 d l r, L = L0 ++ [d, l, r] ∧ d.isDecrypt = true ∧ d.err = none ∧
    l.isLoadKey = true ∧ l.err = none ∧ ∃ p, r.call = .remove p

/-- Every key-status probe among the events comes right after a trial that
succeeded. -/
def ProbeRule (pool : String) (L : List Event) : Prop :=
  ∀ L1 q L2, L = L1 ++ q :: L2 → q.isProbe pool → EndsWithLoadedKey L1

/-- Every trial that succeeded is followed by a key-status probe: after each
load-key that returned no error come the removal of the temporary key file
and then a probe of the pool. -/
def ProbeFollows (pool : String) (L : List Event) : Prop :=
  ∀ L1 l L2, L = L1 ++ l :: L2 → l.isLoadKey = true → l.err = none →
    ∃ r q L3, L2 = r :: q :: L3 ∧ r.isRemove = true ∧ q.isProbe pool

/-- How the events `L` of the identity loop relate to the configured list `ids`
and to the result `res` of the loop.

The loop visited a front part `pre` of the list, in order: it called `os.Stat`
on exactly the entries of `pre` that are not blank, and called `tryIdentity`
on exactly those that `os.Stat` found.  It probed the key status right after
every trial that succeeded, and only then.  Either the last event is a
confirming probe, it is the only one, the identity tried last is the last
entry of `pre` and the loop returned `nil`; or no probe confirmed, the whole
list was visited and the loop returned the error that no identity could
unlock the pool. -/
def TrialOrder (pool : PoolConfig) (ids : List String) (L : List Event) (res : Error) : Prop :=
  ∃ pre suf,
    ids = pre ++ suf ∧
    statPaths L = pre.filter (· ≠ "") ∧
    triedIdentities L = existingPaths L ∧
    ProbeRule pool.Name L ∧
    ProbeFollows pool.Name L ∧
    ((∃ L0 e pre0 id t0,
        L = L0 ++ [e] ∧ e.confirms pool.Name ∧ (∀ y ∈ L0, ¬ y.confirms pool.Name) ∧
        pre = pre0 ++ [id] ∧ triedIdentities L = t0 ++ [id] ∧ res = none) ∨
     ((∀ y ∈ L, ¬ y.confirms pool.Name) ∧ suf = [] ∧
        res = some ("no identity could unlock pool " ++ pool.Name)))

/-- The pool has both a name and a key-file path (line 196). -/
def PoolConfig.complete (p : PoolConfig) : Bool :=
  !(p.Name == "" || p.EncryptedKeyFile == "")

/-- At least one orchestration of the run over the configured pools returned an
error: some complete pool `p`, run in the world the pools before it left,
made `unlockPoolWithTimeout` return an error. -/
def AnyPoolFailed (env : Env) (cfg : Config) (timeout : Int) (w : World) : Prop :=
  ∃ pre p suf, cfg.Pools = pre ++ p :: suf ∧ p.complete = true ∧
    (unlockPoolWithTimeout env cfg p timeout (poolLoop env cfg timeout pre false w).2).1 ≠ none

/-- Every character of the list is white space. -/
def AllSpace (l : List Char) : Prop := ∀ c ∈ l, isSpace c = true

/-- Some line of `s`, trimmed, is `p`. -/
def HasLine (p s : List Char) : Prop := ∃ l ∈ splitLines s, trimChars l = p

instance (p s : List Char) : Decidable (HasLine p s) := by
  unfold HasLine; exact inferInstance

/-- The pool is listed in the output of the pool-list command as
`ensurePoolImported` reads it: some line of the output without its leading
and trailing white space, itself trimmed, is the pool name. -/
def PoolListed (pool out : String) : Prop := HasLine pool.data (trimChars out.data)

instance (pool out : String) : Decidable (PoolListed pool out) := by
  unfold PoolListed; exact inferInstance

/-! ## Example pools and environments -/

/-- A pool `tank` with its key under `/keystore`. -/
def tank : PoolConfig := ⟨"tank", "/keystore/tank.age"⟩

/-- A second pool, `backup`. -/
def backup : PoolConfig := ⟨"backup", "/keystore/backup.age"⟩

/-- The empty world at time zero. -/
def emptyWorld : World := ⟨[], 0, []⟩

/-- The configuration with the one pool `tank` and the identities `/id1`, `/id2`. -/
def tankConfig : Config := ⟨["/id1", "/id2"], [tank]⟩

/-- A configuration with the pools `tank` and `backup` and, between them, a
pool without a name. -/
def fleetConfig : Config := ⟨["/id1"], [tank, ⟨"", "/keystore/x.age"⟩, backup]⟩

/-- An environment in which every call succeeds at once: the pool is listed,
every file exists, every probe says `available`. -/
def envAllGood : Env where
  sys := fun _ c =>
    match c with
    | .exec "zpool" _ => ⟨none, "tank\n", 1⟩
    | .exec "zfs" ("get" :: _) => ⟨none, "available\n", 1⟩
    | .createTemp _ _ => ⟨none, "/run/zfs-key-tank-1", 1⟩
    | _ => ⟨none, "", 1⟩
  filepathDir := fun _ => "/keystore"

/-- An environment in which the pool is listed and the keystore is mounted,
every probe says `unavailable`, and the encrypted key file is missing. -/
def envKeyMissing : Env where
  sys := fun _ c =>
    match c with
    | .exec "zpool" _ => ⟨none, "tank\n", 1⟩
    | .exec "zfs" ("get" :: _) => ⟨none, "unavailable\n", 1⟩
    | .stat "/keystore/tank.age" => ⟨some "no such file or directory", "", 1⟩
    | .createTemp _ _ => ⟨none, "/run/zfs-key-tank-1", 1⟩
    | _ => ⟨none, "", 1⟩
  filepathDir := fun _ => "/keystore"

/-- An environment in which the key-status probe fails until a key has been
loaded and says `available` afterwards; everything else succeeds. -/
def envProbeFailsFirst : Env where
  sys := fun w c =>
    match c with
    | .exec "zpool" _ => ⟨none, "tank\n", 1⟩
    | .exec "zfs" ("get" :: _) =>
      if w.trace.any Event.isLoadKey then ⟨none, "available\n", 1⟩
      else ⟨some "exit status 1", "", 1⟩
    | .createTemp _ _ => ⟨none, "/run/zfs-key-tank-1", 1⟩
    | _ => ⟨none, "", 1⟩
  filepathDir := fun _ => "/keystore"

/-- The configuration with the one pool `tank` and six identity entries: a
blank one, `/missing`, and `/id1` to `/id4`. -/
def sixIdsConfig : Config := ⟨["", "/missing", "/id1", "/id2", "/id3", "/id4"], [tank]⟩

/-- An environment in which the file `/missing` does not exist, identity `/id1`
cannot decrypt the key and every other identity can, and the probe says
`available` only once two keys have been loaded. -/
def envThirdIdentity : Env where
  sys := fun w c =>
    match c with
    | .exec "zpool" _ => ⟨none, "tank\n", 1⟩
    | .exec "zfs" ("get" :: _) =>
      if 2 ≤ (w.trace.filter Event.isLoadKey).length then ⟨none, "available\n", 1⟩
      else ⟨none, "unavailable\n", 1⟩
    | .exec "age" ["--decrypt", "-i", "/id1", _] => ⟨some "exit status 1", "", 1⟩
    | .stat "/missing" => ⟨some "no such file or directory", "", 1⟩
    | .createTemp _ _ => ⟨none, "/run/zfs-key-tank-1", 1⟩
    | _ => ⟨none, "", 1⟩
  filepathDir := fun _ => "/keystore"

/-- An environment in which `zpool list` fails. -/
def envListFails : Env where
  sys := fun _ c =>
    match c with
    | .exec "zpool" _ => ⟨some "exit status 1", "", 1⟩
    | _ => ⟨none, "", 1⟩
  filepathDir := fun _ => "/keystore"

/-- An environment in which the pool is listed but the keystore directory does
not exist. -/
def envNoKeystore : Env where
  sys := fun _ c =>
    match c with
    | .exec "zpool" _ => ⟨none, "tank\n", 1⟩
    | .stat "/keystore" => ⟨some "no such file or directory", "", 1⟩
    | _ => ⟨none, "", 1⟩
  filepathDir := fun _ => "/keystore"

/-- An environment in which the pool is locked and every decryption takes
sixty-one seconds; every other call takes a nanosecond and succeeds. -/
def envSlowDecrypt : Env where
  sys := fun w c =>
    match c with
    | .exec "zpool" _ => ⟨none, "tank\n", 1⟩
    | .exec "zfs" ("get" :: _) =>
      if w.trace.any Event.isLoadKey then ⟨none, "available\n", 1⟩
      else ⟨none, "unavailable\n", 1⟩
    | .exec "age" _ => ⟨none, "", 61000000000⟩
    | .createTemp _ _ => ⟨none, "/run/zfs-key-tank-1", 1⟩
    | _ => ⟨none, "", 1⟩
  filepathDir := fun _ => "/keystore"

/-- An environment in which the pool is locked and no identity can decrypt
the key; every call takes a nanosecond. -/
def envWrongIdentities : Env where
  sys := fun _ c =>
    match c with
    | .exec "zpool" _ => ⟨none, "tank\n", 1⟩
    | .exec "zfs" ("get" :: _) => ⟨none, "unavailable\n", 1⟩
    | .exec "age" _ => ⟨some "exit status 1", "", 1⟩
    | .createTemp _ _ => ⟨none, "/run/zfs-key-tank-1", 1⟩
    | _ => ⟨none, "", 1⟩
  filepathDir := fun _ => "/keystore"

/-- An environment in which the key file of `tank` is missing and everything
else succeeds; the probe says `available` once a key has been loaded. -/
def envTankKeyMissing : Env where
  sys := fun w c =>
    match c with
    | .exec "zpool" _ => ⟨none, "tank\nbackup\n", 1⟩
    | .exec "zfs" ("get" :: _) =>
      if w.trace.any Event.isLoadKey then ⟨none, "available\n", 1⟩
      else ⟨none, "unavailable\n", 1⟩
    | .stat "/keystore/tank.age" => ⟨some "no such file or directory", "", 1⟩
    | .createTemp _ _ => ⟨none, "/run/zfs-key-1", 1⟩
    | _ => ⟨none, "", 1⟩
  filepathDir := fun _ => "/keystore"

/-- An environment in which every pool unlocks with the first identity and the
final `zfs mount -a` fails. -/
def envMountAllFails : Env where
  sys := fun w c =>
    match c with
    | .exec "zpool" _ => ⟨none, "tank\nbackup\n", 1⟩
    | .exec "zfs" ("get" :: _) =>
      if (w.trace.filter Event.isLoadKey).length = (orchestratedPools w.trace).length then
        ⟨none, "available\n", 1⟩
      else ⟨none, "unavailable\n", 1⟩
    | .exec "zfs" ["mount", "-a"] => ⟨some "exit status 1", "", 1⟩
    | .createTemp _ _ => ⟨none, "/run/zfs-key-1", 1⟩
    | _ => ⟨none, "", 1⟩
  filepathDir := fun _ => "/keystore"

/-- An environment in which the imported pools are `tank2` and `mytank`, and
the import of any pool fails. -/
def envOtherPools : Env where
  sys := fun _ c =>
    match c with
    | .exec "zpool" ("list" :: _) => ⟨none, "tank2\n  mytank \n", 1⟩
    | .exec "zpool" ("import" :: _) => ⟨some "exit status 1", "", 1⟩
    | _ => ⟨none, "", 1⟩
  filepathDir := fun _ => "/keystore"

/-! # Lemmas -/

/-! ## Basic facts about the system calls -/

@[simp] theorem Event.stamp_call (e : Event) (s t : Int) : (e.stamp s t).call = e.call := rfl

@[simp] theorem Event.stamp_err (e : Event) (s t : Int) : (e.stamp s t).err = e.err := rfl

@[simp] theorem Event.stamp_out (e : Event) (s t : Int) : (e.stamp s t).out = e.out := rfl

@[simp] theorem Event.stamp_cancelled (e : Event) (s t : Int) :
    (e.stamp s t).cancelled = e.cancelled := rfl

@[simp] theorem Event.stamp_started (e : Event) (s t : Int) : (e.stamp s t).started = s := rfl

@[simp] theorem Event.stamp_ended (e : Event) (s t : Int) : (e.stamp s t).ended = t := rfl

theorem Adds.refl (P : Event → Prop) (w : World) : Adds P w w :=
  ⟨[], by simp, by simp⟩

theorem Adds.trans {P : Event → Prop} {w₁ w₂ w₃ : World}
    (h₁ : Adds P w₁ w₂) (h₂ : Adds P w₂ w₃) : Adds P w₁ w₃ := by
  obtain ⟨a, ha, hPa⟩ := h₁
  obtain ⟨b, hb, hPb⟩ := h₂
  refine ⟨a ++ b, by rw [hb, ha, List.append_assoc], ?_⟩
  intro e he
  rcases List.mem_append.mp he with h | h
  · exact hPa e h
  · exact hPb e h

theorem Adds.mono {P Q : Event → Prop} {w w' : World} (h : Adds P w w')
    (hPQ : ∀ e, P e → Q e) : Adds Q w w' := by
  obtain ⟨a, ha, hPa⟩ := h
  exact ⟨a, ha, fun e he => hPQ e (hPa e he)⟩

theorem newEvents_eq {w w' : World} {evs : List Event}
    (h : w'.trace = w.trace ++ evs) : newEvents w w' = evs := by
  simp [newEvents, h]

theorem Adds.forall_newEvents {P : Event → Prop} {w w' : World} (h : Adds P w w') :
    ∀ e ∈ newEvents w w', P e := by
  obtain ⟨a, ha, hPa⟩ := h
  rw [newEvents_eq ha]
  exact hPa

theorem Adds.trace_eq {P : Event → Prop} {w w' : World} (h : Adds P w w') :
    w'.trace = w.trace ++ newEvents w w' := by
  obtain ⟨a, ha, _⟩ := h
  rw [newEvents_eq ha, ha]

theorem newEvents_self (w : World) : newEvents w w = [] := by
  simp [newEvents]

theorem newEvents_trans {P Q : Event → Prop} {w₁ w₂ w₃ : World}
    (h₁ : Adds P w₁ w₂) (h₂ : Adds Q w₂ w₃) :
    newEvents w₁ w₃ = newEvents w₁ w₂ ++ newEvents w₂ w₃ := by
  have e₁ := h₁.trace_eq
  have e₂ := h₂.trace_eq
  apply newEvents_eq
  rw [e₂, e₁, List.append_assoc]

theorem Adds.record (P : Event → Prop) (w : World) (e : Event) (t : Int)
    (h : P (e.stamp w.clock t)) : Adds P w (w.record e t) :=
  ⟨[e.stamp w.clock t], rfl, by simpa using h⟩

/-- What `runProcess` adds to the trace: one event, the command itself. -/
theorem runProcess_event (env : Env) (ctx : Context) (name : String) (args : List String)
    (w : World) :
    ∃ e, (runProcess env ctx name args w).2.trace = w.trace ++ [e] ∧
      e.call = .exec name args ∧ e.err = (runProcess env ctx name args w).1.2 ∧
      ((runProcess env ctx name args w).1.2 = none →
        e.cancelled = false ∧ e.out = (runProcess env ctx name args w).1.1) := by
  unfold runProcess
  by_cases h1 : ctx.deadline ≤ w.clock
  · simp [h1, World.record]
  · by_cases h2 : ctx.deadline < w.clock + (env.sys w (.exec name args)).dur
    · simp [h1, h2, World.record]
    · simp [h1, h2, World.record]

theorem runCmd_event (env : Env) (ctx : Context) (name : String) (args : List String)
    (w : World) :
    ∃ e, (runCmd env ctx name args w).2.trace = w.trace ++ [e] ∧
      e.call = .exec name args ∧ e.err = (runCmd env ctx name args w).1 ∧
      ((runCmd env ctx name args w).1 = none → e.cancelled = false) := by
  obtain ⟨e, h1, h2, h3, h4⟩ := runProcess_event env ctx name args w
  exact ⟨e, h1, h2, h3, fun h => (h4 h).1⟩

theorem runCmdOutput_world (env : Env) (ctx : Context) (name : String) (args : List String)
    (w : World) : (runCmdOutput env ctx name args w).2 = (runProcess env ctx name args w).2 := by
  unfold runCmdOutput
  cases h : (runProcess env ctx name args w).1.2 <;> simp [h]

theorem runCmdOutput_err (env : Env) (ctx : Context) (name : String) (args : List String)
    (w : World) :
    (runCmdOutput env ctx name args w).1.2 = (runProcess env ctx name args w).1.2 := by
  unfold runCmdOutput
  cases h : (runProcess env ctx name args w).1.2 <;> simp [h]

theorem runCmdOutput_out (env : Env) (ctx : Context) (name : String) (args : List String)
    (w : World) (h : (runProcess env ctx name args w).1.2 = none) :
    (runCmdOutput env ctx name args w).1.1 = (runProcess env ctx name args w).1.1 := by
  unfold runCmdOutput
  simp [h]

theorem runCmdOutput_event (env : Env) (ctx : Context) (name : String) (args : List String)
    (w : World) :
    ∃ e, (runCmdOutput env ctx name args w).2.trace = w.trace ++ [e] ∧
      e.call = .exec name args ∧ e.err = (runCmdOutput env ctx name args w).1.2 ∧
      ((runCmdOutput env ctx name args w).1.2 = none →
        e.cancelled = false ∧ e.out = (runCmdOutput env ctx name args w).1.1) := by
  obtain ⟨e, h1, h2, h3, h4⟩ := runProcess_event env ctx name args w
  rw [runCmdOutput_world, runCmdOutput_err]
  refine ⟨e, h1, h2, h3, fun h => ?_⟩
  rw [runCmdOutput_out env ctx name args w h]
  exact h4 h

theorem fileExists_event (env : Env) (path : String) (w : World) :
    ∃ e, (fileExists env path w).2.trace = w.trace ++ [e] ∧ e.call = .stat path ∧
      (e.err.isNone = (fileExists env path w).1) := by
  simp [fileExists, World.record]

@[simp] theorem World.record_trace (w : World) (e : Event) (t : Int) :
    (w.record e t).trace = w.trace ++ [e.stamp w.clock t] := rfl

@[simp] theorem World.record_clock (w : World) (e : Event) (t : Int) :
    (w.record e t).clock = t := rfl

/-- What the close-and-remove does: one event, the removal, with the answer
of the environment; the file is gone exactly when that answer is no error. -/
theorem removeTemp_outcome (env : Env) (path : String) (w : World) :
    ∃ e, (removeTemp env path w).trace = w.trace ++ [e] ∧ e.call = .remove path ∧
      e.cancelled = false ∧
      (e.err = none → (removeTemp env path w).files = w.files.filter (· ≠ path)) ∧
      (e.err ≠ none → (removeTemp env path w).files = w.files) := by
  unfold removeTemp
  dsimp only
  split
  · exact ⟨_, rfl, rfl, rfl, fun _ => rfl, fun h => absurd rfl h⟩
  · refine ⟨_, rfl, rfl, rfl, fun h => ?_, fun _ => rfl⟩
    simp at h

/-! ## The readiness steps add no trial event -/

theorem IsReadiness.not_trial {env : Env} {pool : PoolConfig} {e : Event}
    (h : IsReadiness env pool e) : e.isTrial = false := by
  unfold IsReadiness readinessCalls at h
  simp only [List.mem_cons, List.mem_singleton, List.not_mem_nil, or_false] at h
  rcases h with h | h | h | h | h | h <;>
    simp [Event.isTrial, Event.isDecrypt, Event.isLoadKey, h]

theorem triedIdentities_eq_nil {evs : List Event} (h : ∀ e ∈ evs, e.isTrial = false) :
    triedIdentities evs = [] := by
  unfold triedIdentities
  rw [List.filterMap_eq_nil_iff]
  intro e he
  have := h e he
  cases hc : e.call <;> simp_all [Event.isTrial]

theorem not_decrypt_of_not_trial {e : Event} (h : e.isTrial = false) :
    e.isDecrypt = false ∧ e.isLoadKey = false := by
  cases hc : e.call <;> simp_all [Event.isTrial, Event.isDecrypt, Event.isLoadKey]

theorem ensurePoolImported_adds (env : Env) (ctx : Context) (pool : PoolConfig) (w : World) :
    Adds (IsReadiness env pool) w (ensurePoolImported env ctx pool.Name w).2 := by
  obtain ⟨e, he, hc, -⟩ := runCmdOutput_event env ctx "zpool" ["list", "-H", "-o", "name"] w
  have h1 : Adds (IsReadiness env pool) w
      (runCmdOutput env ctx "zpool" ["list", "-H", "-o", "name"] w).2 :=
    ⟨[e], he, by simp [IsReadiness, readinessCalls, hc]⟩
  obtain ⟨e2, he2, hc2, -⟩ := runCmd_event env ctx "zpool" ["import", "-N", pool.Name]
    (runCmdOutput env ctx "zpool" ["list", "-H", "-o", "name"] w).2
  have h2 : Adds (IsReadiness env pool) w
      (runCmd env ctx "zpool" ["import", "-N", pool.Name]
        (runCmdOutput env ctx "zpool" ["list", "-H", "-o", "name"] w).2).2 :=
    h1.trans ⟨[e2], he2, by simp [IsReadiness, readinessCalls, hc2]⟩
  unfold ensurePoolImported
  dsimp only
  split
  · exact h1
  · split
    · exact h1
    · split <;> exact h2

theorem ensureKeystoreMounted_adds (env : Env) (ctx : Context) (pool : PoolConfig) (w : World) :
    Adds (IsReadiness env pool) w
      (ensureKeystoreMounted env ctx pool.Name pool.EncryptedKeyFile w).2 := by
  obtain ⟨e, he, hc, -⟩ := runCmd_event env ctx "zfs" ["mount", pool.Name ++ "/keystore"] w
  obtain ⟨e2, he2, hc2, -⟩ := fileExists_event env (env.filepathDir pool.EncryptedKeyFile)
    (runCmd env ctx "zfs" ["mount", pool.Name ++ "/keystore"] w).2
  have h2 : Adds (IsReadiness env pool) w
      (fileExists env (env.filepathDir pool.EncryptedKeyFile)
        (runCmd env ctx "zfs" ["mount", pool.Name ++ "/keystore"] w).2).2 :=
    Adds.trans ⟨[e], he, by simp [IsReadiness, readinessCalls, hc]⟩
      ⟨[e2], he2, by simp [IsReadiness, readinessCalls, hc2]⟩
  unfold ensureKeystoreMounted
  dsimp only
  split <;> exact h2

theorem getKeyStatus_world (env : Env) (ctx : Context) (pool : String) (w : World) :
    (getKeyStatus env ctx pool w).2 =
      (runCmdOutput env ctx "zfs" ["get", "-H", "-o", "value", "keystatus", pool] w).2 := by
  unfold getKeyStatus
  dsimp only
  split <;> rfl

theorem getKeyStatus_adds (env : Env) (ctx : Context) (pool : PoolConfig) (w : World) :
    Adds (IsReadiness env pool) w (getKeyStatus env ctx pool.Name w).2 := by
  obtain ⟨e, he, hc, -⟩ :=
    runCmdOutput_event env ctx "zfs" ["get", "-H", "-o", "value", "keystatus", pool.Name] w
  rw [getKeyStatus_world]
  exact ⟨[e], he, by simp [IsReadiness, readinessCalls, hc]⟩

theorem keyFileExists_adds (env : Env) (pool : PoolConfig) (w : World) :
    Adds (IsReadiness env pool) w (fileExists env pool.EncryptedKeyFile w).2 := by
  obtain ⟨e, he, hc, -⟩ := fileExists_event env pool.EncryptedKeyFile w
  exact ⟨[e], he, by simp [IsReadiness, readinessCalls, hc]⟩

/-! ## Events of an identity trial -/

theorem createTemp_event (env : Env) (dir pattern : String) (w : World) :
    ∃ e, (createTemp env dir pattern w).2.trace = w.trace ++ [e] ∧
      e.call = .createTemp dir pattern := by
  unfold createTemp
  dsimp only
  split
  · exact ⟨_, rfl, rfl⟩
  · split
    · exact ⟨_, rfl, rfl⟩
    · exact ⟨_, rfl, rfl⟩

theorem removeTemp_event (env : Env) (path : String) (w : World) :
    ∃ e, (removeTemp env path w).trace = w.trace ++ [e] ∧ e.call = .remove path := by
  obtain ⟨e, h1, h2, -⟩ := removeTemp_outcome env path w
  exact ⟨e, h1, h2⟩

theorem createTemp_adds (env : Env) (dir pattern : String) (w : World) :
    Adds (fun e => e.isTrialStep = true) w (createTemp env dir pattern w).2 := by
  obtain ⟨e, he, hc⟩ := createTemp_event env dir pattern w
  exact ⟨[e], he, by simp [Event.isTrialStep, hc]⟩

theorem removeTemp_adds (env : Env) (path : String) (w : World) :
    Adds (fun e => e.isTrialStep = true) w (removeTemp env path w) := by
  obtain ⟨e, he, hc⟩ := removeTemp_event env path w
  exact ⟨[e], he, by simp [Event.isTrialStep, hc]⟩

theorem decrypt_adds (env : Env) (ctx : Context) (args : List String) (w : World) :
    Adds (fun e => e.isTrialStep = true) w (runProcess env ctx "age" args w).2 := by
  obtain ⟨e, he, hc, -⟩ := runProcess_event env ctx "age" args w
  exact ⟨[e], he, by simp [Event.isTrialStep, Event.isDecrypt, hc]⟩

theorem loadKey_adds (env : Env) (ctx : Context) (args : List String) (w : World) :
    Adds (fun e => e.isTrialStep = true) w (runCmd env ctx "zfs" ("load-key" :: args) w).2 := by
  obtain ⟨e, he, hc, -⟩ := runCmd_event env ctx "zfs" ("load-key" :: args) w
  exact ⟨[e], he, by simp [Event.isTrialStep, Event.isDecrypt, Event.isLoadKey, hc]⟩

/-- The world right after the entry marker of `tryIdentity`. -/
theorem tryIdentity_steps (env : Env) (ctx : Context) (pool : PoolConfig) (identity : String)
    (w : World) :
    Adds (fun e => e.isTrialStep = true) (w.record (trialMarker pool identity) w.clock)
      (tryIdentity env ctx pool identity w).2 := by
  unfold tryIdentity
  dsimp only
  have hc := createTemp_adds env "/run" ("zfs-key-" ++ pool.Name ++ "-")
    (w.record ⟨.enterTryIdentity pool identity, none, "", false, 0, 0⟩ w.clock)
  split
  · exact hc
  · rename_i p _
    have hd := hc.trans (decrypt_adds env ctx ["--decrypt", "-i", identity, pool.EncryptedKeyFile]
      (createTemp env "/run" ("zfs-key-" ++ pool.Name ++ "-")
        (w.record ⟨.enterTryIdentity pool identity, none, "", false, 0, 0⟩ w.clock)).2)
    split
    · exact hd.trans (removeTemp_adds env p _)
    · have hl := hd.trans (loadKey_adds env ctx ["-L", "file://" ++ p, pool.Name]
        (runProcess env ctx "age" ["--decrypt", "-i", identity, pool.EncryptedKeyFile]
          (createTemp env "/run" ("zfs-key-" ++ pool.Name ++ "-")
            (w.record ⟨.enterTryIdentity pool identity, none, "", false, 0, 0⟩ w.clock)).2).2)
      split
      · exact hl.trans (removeTemp_adds env p _)
      · exact hl.trans (removeTemp_adds env p _)

/-- The events of a `tryIdentity` that returned `nil`: after the entry marker,
the creation of the temporary file, a decryption and a load-key that returned
no error, and the removal of the temporary file. -/
theorem tryIdentity_success_steps (env : Env) (ctx : Context) (pool : PoolConfig)
    (identity : String) (w : World) (h : (tryIdentity env ctx pool identity w).1 = none) :
    ∃ c d l r, (tryIdentity env ctx pool identity w).2.trace =
        (w.record (trialMarker pool identity) w.clock).trace ++ [c, d, l, r] ∧
      c.isLoadKey = false ∧
      d.isDecrypt = true ∧ d.err = none ∧ d.isLoadKey = false ∧
      l.isLoadKey = true ∧ l.err = none ∧
      r.isRemove = true ∧ r.isLoadKey = false ∧ ∃ p, r.call = .remove p := by
  unfold tryIdentity at h ⊢
  dsimp only at h ⊢
  obtain ⟨c, hc, hcc⟩ := createTemp_event env "/run" ("zfs-key-" ++ pool.Name ++ "-")
    (w.record ⟨.enterTryIdentity pool identity, none, "", false, 0, 0⟩ w.clock)
  split at h
  · cases h
  · rename_i p _
    obtain ⟨d, hd, hdc, hde, -⟩ := runProcess_event env ctx "age"
      ["--decrypt", "-i", identity, pool.EncryptedKeyFile]
      (createTemp env "/run" ("zfs-key-" ++ pool.Name ++ "-")
        (w.record ⟨.enterTryIdentity pool identity, none, "", false, 0, 0⟩ w.clock)).2
    split at h
    · cases h
    · rename_i hdn
      obtain ⟨l, hl, hlc, hle, -⟩ := runCmd_event env ctx "zfs"
        ["load-key", "-L", "file://" ++ p, pool.Name]
        (runProcess env ctx "age" ["--decrypt", "-i", identity, pool.EncryptedKeyFile]
          (createTemp env "/run" ("zfs-key-" ++ pool.Name ++ "-")
            (w.record ⟨.enterTryIdentity pool identity, none, "", false, 0, 0⟩ w.clock)).2).2
      split at h
      · cases h
      · rename_i hln
        obtain ⟨r, hr, hrc⟩ := removeTemp_event env p
          (runCmd env ctx "zfs" ["load-key", "-L", "file://" ++ p, pool.Name]
            (runProcess env ctx "age" ["--decrypt", "-i", identity, pool.EncryptedKeyFile]
              (createTemp env "/run" ("zfs-key-" ++ pool.Name ++ "-")
                (w.record ⟨.enterTryIdentity pool identity, none, "", false, 0, 0⟩ w.clock)).2).2).2
        refine ⟨c, d, l, r, ?_, by simp [Event.isLoadKey, hcc], by simp [Event.isDecrypt, hdc],
          by rw [hde, hdn], by simp [Event.isLoadKey, hdc], by simp [Event.isLoadKey, hlc],
          by rw [hle, hln], by simp [Event.isRemove, hrc], by simp [Event.isLoadKey, hrc],
          p, hrc⟩
        rw [hr, hl, hd, hc]
        simp [trialMarker]

/-- The events of a `tryIdentity` that returned an error hold no load-key that
returned no error. -/
theorem tryIdentity_failure_steps (env : Env) (ctx : Context) (pool : PoolConfig)
    (identity : String) (w : World) (m : String)
    (h : (tryIdentity env ctx pool identity w).1 = some m) :
    Adds (fun e => e.isLoadKey = true → e.err ≠ none)
      (w.record (trialMarker pool identity) w.clock)
      (tryIdentity env ctx pool identity w).2 := by
  unfold tryIdentity at h ⊢
  dsimp only at h ⊢
  have hcre : ∀ w', Adds (fun e => e.isLoadKey = true → e.err ≠ none) w'
      (createTemp env "/run" ("zfs-key-" ++ pool.Name ++ "-") w').2 := by
    intro w'
    obtain ⟨c, hc, hcc⟩ := createTemp_event env "/run" ("zfs-key-" ++ pool.Name ++ "-") w'
    exact ⟨[c], hc, by simp [Event.isLoadKey, hcc]⟩
  have hage : ∀ a w', Adds (fun e => e.isLoadKey = true → e.err ≠ none) w'
      (runProcess env ctx "age" a w').2 := by
    intro a w'
    obtain ⟨d, hd, hdc, -⟩ := runProcess_event env ctx "age" a w'
    exact ⟨[d], hd, by simp [Event.isLoadKey, hdc]⟩
  have hrem : ∀ p w', Adds (fun e => e.isLoadKey = true → e.err ≠ none) w'
      (removeTemp env p w') := by
    intro p w'
    obtain ⟨r, hr, hrc⟩ := removeTemp_event env p w'
    exact ⟨[r], hr, by simp [Event.isLoadKey, hrc]⟩
  have hc := hcre (w.record ⟨.enterTryIdentity pool identity, none, "", false, 0, 0⟩ w.clock)
  unfold trialMarker
  split
  · exact hc
  · rename_i p hp
    simp only [hp] at h
    have hd := hc.trans (hage ["--decrypt", "-i", identity, pool.EncryptedKeyFile] _)
    split
    · exact hd.trans (hrem p _)
    · rename_i hdn
      simp only [hdn] at h
      obtain ⟨l, hl, -, hle, -⟩ := runCmd_event env ctx "zfs"
        ["load-key", "-L", "file://" ++ p, pool.Name]
        (runProcess env ctx "age" ["--decrypt", "-i", identity, pool.EncryptedKeyFile]
          (createTemp env "/run" ("zfs-key-" ++ pool.Name ++ "-")
            (w.record ⟨.enterTryIdentity pool identity, none, "", false, 0, 0⟩ w.clock)).2).2
      split
      · rename_i x hx
        have hload : Adds (fun e => e.isLoadKey = true → e.err ≠ none)
            (runProcess env ctx "age" ["--decrypt", "-i", identity, pool.EncryptedKeyFile]
              (createTemp env "/run" ("zfs-key-" ++ pool.Name ++ "-")
                (w.record ⟨.enterTryIdentity pool identity, none, "", false, 0, 0⟩
                  w.clock)).2).2
            (runCmd env ctx "zfs" ["load-key", "-L", "file://" ++ p, pool.Name]
              (runProcess env ctx "age" ["--decrypt", "-i", identity, pool.EncryptedKeyFile]
                (createTemp env "/run" ("zfs-key-" ++ pool.Name ++ "-")
                  (w.record ⟨.enterTryIdentity pool identity, none, "", false, 0, 0⟩
                    w.clock)).2).2).2 :=
          ⟨[l], hl, by simp [hle, hx]⟩
        exact (hd.trans hload).trans (hrem p _)
      · rename_i hx
        simp only [hx] at h
        cases h

/-- The events of `tryIdentity`: the entry marker, then trial steps.  When the
call returned `nil` the steps are the creation of the temporary file, a
decryption and a load-key that returned no error, and the removal; when it
returned an error no load-key among them returned no error. -/
theorem tryIdentity_events (env : Env) (ctx : Context) (pool : PoolConfig) (identity : String)
    (w : World) :
    ∃ T, (tryIdentity env ctx pool identity w).2.trace =
        w.trace ++ (trialMarker pool identity).stamp w.clock w.clock :: T ∧
      (∀ e ∈ T, e.isTrialStep = true) ∧
      ((tryIdentity env ctx pool identity w).1 = none →
        EndsWithLoadedKey T ∧
        ∃ c d l r, T = [c, d, l, r] ∧ c.isLoadKey = false ∧ d.isLoadKey = false ∧
          l.isLoadKey = true ∧ l.err = none ∧ r.isRemove = true ∧ r.isLoadKey = false) ∧
      ((tryIdentity env ctx pool identity w).1 ≠ none →
        ∀ e ∈ T, e.isLoadKey = true → e.err ≠ none) := by
  obtain ⟨T, hT, hP⟩ := tryIdentity_steps env ctx pool identity w
  refine ⟨T, ?_, hP, ?_, ?_⟩
  · rw [hT, World.record_trace, List.append_assoc]
    rfl
  · intro h
    obtain ⟨c, d, l, r, htr, hcl, h1, h2, hdl, h3, h4, hrr, hrl, h5⟩ :=
      tryIdentity_success_steps env ctx pool identity w h
    rw [hT] at htr
    have hTeq : T = [c, d, l, r] := List.append_cancel_left htr
    exact ⟨⟨[c], d, l, r, by rw [hTeq]; rfl, h1, h2, h3, h4, h5⟩,
      c, d, l, r, hTeq, hcl, hdl, h3, h4, hrr, hrl⟩
  · intro h
    cases hm : (tryIdentity env ctx pool identity w).1 with
    | none => exact absurd hm h
    | some m =>
      obtain ⟨T', hT', hP'⟩ := tryIdentity_failure_steps env ctx pool identity w m hm
      rw [hT] at hT'
      rw [List.append_cancel_left hT']
      exact hP'

/-- The event of a key-status probe, and when it confirms. -/
theorem getKeyStatus_event (env : Env) (ctx : Context) (pool : String) (w : World) :
    ∃ e, (getKeyStatus env ctx pool w).2.trace = w.trace ++ [e] ∧
      e.call = .exec "zfs" ["get", "-H", "-o", "value", "keystatus", pool] ∧
      e.err = (getKeyStatus env ctx pool w).1.2 ∧
      ((getKeyStatus env ctx pool w).1.2 = none → e.cancelled = false) ∧
      (((getKeyStatus env ctx pool w).1.2 = none ∧
          (getKeyStatus env ctx pool w).1.1 = "available") ↔ e.confirms pool) := by
  obtain ⟨e, he, hc, herr, hout⟩ :=
    runCmdOutput_event env ctx "zfs" ["get", "-H", "-o", "value", "keystatus", pool] w
  have hw := getKeyStatus_world env ctx pool w
  have h2 : (getKeyStatus env ctx pool w).1.2 =
      (runCmdOutput env ctx "zfs" ["get", "-H", "-o", "value", "keystatus", pool] w).1.2 := by
    unfold getKeyStatus
    dsimp only
    split <;> simp_all
  have h1 : (getKeyStatus env ctx pool w).1.2 = none → (getKeyStatus env ctx pool w).1.1 =
      trimSpace (runCmdOutput env ctx "zfs"
        ["get", "-H", "-o", "value", "keystatus", pool] w).1.1 := by
    intro hn
    rw [h2] at hn
    unfold getKeyStatus
    dsimp only
    split
    · simp_all
    · rfl
  refine ⟨e, by rw [hw]; exact he, hc, by rw [h2]; exact herr, ?_, ?_⟩
  · intro hn
    exact (hout (h2 ▸ hn)).1
  · constructor
    · rintro ⟨hn, hav⟩
      have ho := hout (h2 ▸ hn)
      refine ⟨hc, by rw [herr, ← h2]; exact hn, ho.1, ?_⟩
      rw [ho.2, ← h1 hn]
      exact hav
    · rintro ⟨-, hen, -, hav⟩
      have hn : (getKeyStatus env ctx pool w).1.2 = none := by
        rw [h2, ← herr]; exact hen
      refine ⟨hn, ?_⟩
      rw [h1 hn, ← (hout (h2 ▸ hn)).2]
      exact hav

/-! ## The identity loop -/

theorem statPaths_append (a b : List Event) : statPaths (a ++ b) = statPaths a ++ statPaths b := by
  simp [statPaths, List.filterMap_append]

theorem existingPaths_append (a b : List Event) :
    existingPaths (a ++ b) = existingPaths a ++ existingPaths b := by
  simp [existingPaths, List.filterMap_append]

theorem triedIdentities_append (a b : List Event) :
    triedIdentities (a ++ b) = triedIdentities a ++ triedIdentities b := by
  simp [triedIdentities, List.filterMap_append]

theorem orchestratedPools_append (a b : List Event) :
    orchestratedPools (a ++ b) = orchestratedPools a ++ orchestratedPools b := by
  simp [orchestratedPools, List.filterMap_append]

theorem not_confirms_of_trialStep {e : Event} (pool : String) (h : e.isTrialStep = true) :
    ¬ e.confirms pool := by
  rintro ⟨hc, -⟩
  simp [Event.isTrialStep, Event.isDecrypt, Event.isLoadKey, hc] at h

theorem trialSteps_silent {T : List Event} (h : ∀ e ∈ T, e.isTrialStep = true) :
    statPaths T = [] ∧ existingPaths T = [] ∧ triedIdentities T = [] := by
  refine ⟨?_, ?_, ?_⟩
  · unfold statPaths
    rw [List.filterMap_eq_nil_iff]
    intro e he
    have := h e he
    cases hc : e.call <;> simp_all [Event.isTrialStep, Event.isDecrypt, Event.isLoadKey]
  · unfold existingPaths
    rw [List.filterMap_eq_nil_iff]
    intro e he
    have := h e he
    cases hc : e.call <;> simp_all [Event.isTrialStep, Event.isDecrypt, Event.isLoadKey]
  · unfold triedIdentities
    rw [List.filterMap_eq_nil_iff]
    intro e he
    have := h e he
    cases hc : e.call <;> simp_all [Event.isTrialStep, Event.isDecrypt, Event.isLoadKey]

theorem EndsWithLoadedKey.append_left {L : List Event} (V : List Event)
    (h : EndsWithLoadedKey L) : EndsWithLoadedKey (V ++ L) := by
  obtain ⟨L0, d, l, r, hL, h1⟩ := h
  exact ⟨V ++ L0, d, l, r, by rw [hL, List.append_assoc], h1⟩

theorem ProbeRule.of_no_probe {pool : String} {V : List Event}
    (h : ∀ y ∈ V, ¬ y.isProbe pool) : ProbeRule pool V := by
  intro L1 q L2 hV hq
  exact absurd hq (h q (by rw [hV]; simp))

theorem ProbeRule.append {pool : String} {V L : List Event}
    (hV : ProbeRule pool V) (hL : ProbeRule pool L) : ProbeRule pool (V ++ L) := by
  intro L1 q L2 heq hq
  rcases List.append_eq_append_iff.mp heq with ⟨a, h1, h2⟩ | ⟨c, h1, h2⟩
  · rw [h1]
    exact (hL a q L2 h2 hq).append_left V
  · cases c with
    | nil =>
      simp only [List.nil_append, List.append_nil] at h1 h2
      have := (hL [] q L2 h2.symm hq).append_left L1
      simpa using this
    | cons x c =>
      simp only [List.cons_append, List.cons.injEq] at h2
      exact hV L1 q c (by rw [h1, h2.1]) hq

theorem ProbeRule.snoc {pool : String} {V : List Event} (q : Event)
    (hV : ∀ y ∈ V, ¬ y.isProbe pool) (hend : EndsWithLoadedKey V) :
    ProbeRule pool (V ++ [q]) := by
  intro L1 q' L2 heq hq
  rcases List.append_eq_append_iff.mp heq with ⟨a, h1, h2⟩ | ⟨c, h1, h2⟩
  · cases a with
    | nil =>
      simp only [List.append_nil] at h1
      rw [h1]
      exact hend
    | cons x a =>
      have := congrArg List.length h2
      simp at this
  · cases c with
    | nil =>
      simp only [List.append_nil] at h1
      rw [← h1]
      exact hend
    | cons x c =>
      simp only [List.cons_append, List.cons.injEq] at h2
      exact absurd hq (hV q' (by rw [h1, h2.1]; simp))

theorem not_probe_of_trialStep {e : Event} (pool : String) (h : e.isTrialStep = true) :
    ¬ e.isProbe pool := by
  intro hc
  unfold Event.isProbe at hc
  simp [Event.isTrialStep, Event.isDecrypt, Event.isLoadKey, hc] at h

theorem ProbeFollows.of_no_load {pool : String} {V : List Event}
    (h : ∀ y ∈ V, y.isLoadKey = true → y.err ≠ none) : ProbeFollows pool V := by
  intro L1 l L2 hV hl hle
  exact absurd hle (h l (by rw [hV]; simp) hl)

theorem ProbeFollows.concat {pool : String} {V L : List Event}
    (hV : ProbeFollows pool V) (hL : ProbeFollows pool L) : ProbeFollows pool (V ++ L) := by
  intro L1 l L2 heq hl hle
  rcases List.append_eq_append_iff.mp heq with ⟨a, h1, h2⟩ | ⟨c, h1, h2⟩
  · exact hL a l L2 h2 hl hle
  · cases c with
    | nil =>
      simp only [List.nil_append] at h2
      exact hL [] l L2 h2.symm hl hle
    | cons x c =>
      simp only [List.cons_append, List.cons.injEq] at h2
      obtain ⟨r, q, L3, h3, hr, hq⟩ := hV L1 l c (by rw [h1, h2.1]) hl hle
      exact ⟨r, q, L3 ++ L, by rw [h2.2, h3]; rfl, hr, hq⟩

/-- A load-key, the removal and the probe. -/
theorem ProbeFollows.triple {pool : String} (l r q : Event)
    (hr : r.isRemove = true) (hrl : r.isLoadKey = false)
    (hq : q.isProbe pool) (hql : q.isLoadKey = false) : ProbeFollows pool [l, r, q] := by
  intro L1 x L2 heq hx hxe
  cases L1 with
  | nil =>
    simp only [List.nil_append, List.cons.injEq] at heq
    exact ⟨r, q, [], heq.2.symm, hr, hq⟩
  | cons a L1 =>
    simp only [List.cons_append, List.cons.injEq] at heq
    have hmem : x ∈ [r, q] := by rw [heq.2]; simp
    simp only [List.mem_cons, List.mem_singleton, List.not_mem_nil, or_false] at hmem
    rcases hmem with h | h
    · rw [h, hrl] at hx; cases hx
    · rw [h, hql] at hx; cases hx

/-- A visit that did not end the loop, put in front of the rest of the loop. -/
theorem TrialOrder.cons {pool : PoolConfig} {rest : List String} {L : List Event} {res : Error}
    (id : String) (V : List Event)
    (hstat : statPaths V = [id].filter (· ≠ ""))
    (htried : triedIdentities V = existingPaths V)
    (hrule : ProbeRule pool.Name V)
    (hfol : ProbeFollows pool.Name V)
    (hno : ∀ y ∈ V, ¬ y.confirms pool.Name)
    (h : TrialOrder pool rest L res) : TrialOrder pool (id :: rest) (V ++ L) res := by
  obtain ⟨pre, suf, hids, hs, ht, hr, hf, hend⟩ := h
  refine ⟨id :: pre, suf, by simp [hids], ?_, ?_, hrule.append hr, hfol.concat hf, ?_⟩
  · rw [statPaths_append, hstat, hs]
    by_cases hid : id = "" <;> simp [hid]
  · rw [triedIdentities_append, existingPaths_append, htried, ht]
  · rcases hend with ⟨L0, e, pre0, id', t0, hL, he, hL0, hpre, htr, hres⟩ | ⟨hnone, hsuf, hres⟩
    · left
      refine ⟨V ++ L0, e, id :: pre0, id', triedIdentities V ++ t0, ?_, he, ?_, ?_, ?_, hres⟩
      · rw [hL, List.append_assoc]
      · intro y hy
        rcases List.mem_append.mp hy with hy | hy
        · exact hno y hy
        · exact hL0 y hy
      · simp [hpre]
      · rw [triedIdentities_append, htr, List.append_assoc]
    · right
      refine ⟨?_, hsuf, hres⟩
      intro y hy
      rcases List.mem_append.mp hy with hy | hy
      · exact hno y hy
      · exact hnone y hy

/-- A visit that ended the loop with a confirming probe. -/
theorem TrialOrder.stop {pool : PoolConfig} (id : String) (rest : List String)
    (V : List Event) (q : Event)
    (hstat : statPaths V = [id]) (hex : existingPaths V = [id])
    (htried : triedIdentities V = [id])
    (hnp : ∀ y ∈ V, ¬ y.isProbe pool.Name) (hend : EndsWithLoadedKey V)
    (hfol : ProbeFollows pool.Name (V ++ [q]))
    (hne : id ≠ "")
    (hq : q.confirms pool.Name) : TrialOrder pool (id :: rest) (V ++ [q]) none := by
  have hqs : statPaths [q] = [] ∧ existingPaths [q] = [] ∧ triedIdentities [q] = [] := by
    obtain ⟨hc, -⟩ := hq
    simp [statPaths, existingPaths, triedIdentities, hc]
  refine ⟨[id], rest, rfl, ?_, ?_, ProbeRule.snoc q hnp hend, hfol, ?_⟩
  · rw [statPaths_append, hstat, hqs.1]
    simp [hne]
  · rw [triedIdentities_append, existingPaths_append, htried, hex, hqs.2.1, hqs.2.2]
  · left
    refine ⟨V, q, [], id, [], rfl, hq, fun y hy hc => hnp y hy hc.1, rfl, ?_, rfl⟩
    rw [triedIdentities_append, htried, hqs.2.2]
    rfl

theorem statEvent_paths {s : Event} {id : String} (hc : s.call = .stat id) :
    statPaths [s] = [id] ∧ triedIdentities [s] = [] ∧
      existingPaths [s] = (if s.err.isNone then [id] else []) ∧
      ∀ pool, ¬ s.confirms pool := by
  refine ⟨by simp [statPaths, hc], by simp [triedIdentities, hc], ?_, ?_⟩
  · cases he : s.err <;> simp [existingPaths, hc, he]
  · rintro pool ⟨h, -⟩
    rw [hc] at h
    cases h

theorem trialMarker_paths (pool : PoolConfig) (id : String) (s t : Int) :
    statPaths [(trialMarker pool id).stamp s t] = [] ∧
      triedIdentities [(trialMarker pool id).stamp s t] = [id] ∧
      existingPaths [(trialMarker pool id).stamp s t] = [] ∧
      ∀ p, ¬ ((trialMarker pool id).stamp s t).confirms p := by
  refine ⟨rfl, rfl, rfl, ?_⟩
  rintro p ⟨h, -⟩
  cases h

/-- The events of the identity loop and their relation to the configured list. -/
theorem identityLoop_order (env : Env) (ctx : Context) (pool : PoolConfig) :
    ∀ (ids : List String) (w : World),
      ∃ L, (identityLoop env ctx pool ids w).2.trace = w.trace ++ L ∧
        TrialOrder pool ids L (identityLoop env ctx pool ids w).1 := by
  intro ids
  induction ids with
  | nil =>
    intro w
    refine ⟨[], by simp [identityLoop], [], [], rfl, rfl, rfl,
      ProbeRule.of_no_probe (by simp), ProbeFollows.of_no_load (by simp),
      Or.inr ⟨?_, rfl, rfl⟩⟩
    simp
  | cons id rest ih =>
    intro w
    unfold identityLoop
    by_cases hid : id = ""
    · obtain ⟨L, hL, hT⟩ := ih w
      refine ⟨[] ++ L, by simpa [hid] using hL, ?_⟩
      simp only [hid, if_true]
      exact TrialOrder.cons "" [] rfl rfl (ProbeRule.of_no_probe (by simp))
        (ProbeFollows.of_no_load (by simp)) (by simp) hT
    · simp only [hid, if_false]
      obtain ⟨s, hs, hsc, hse⟩ := fileExists_event env id w
      obtain ⟨hs1, hs2, hs3, hs4⟩ := statEvent_paths hsc
      have hs5 : ¬ s.isProbe pool.Name := by
        intro h
        unfold Event.isProbe at h
        rw [hsc] at h
        cases h
      have hs6 : s.isLoadKey = false := by simp [Event.isLoadKey, hsc]
      by_cases hx : (fileExists env id w).1 = true
      · simp only [hx, Bool.not_true, Bool.false_eq_true, if_false]
        obtain ⟨T, hT, hTs, hTok, hTbad⟩ :=
          tryIdentity_events env ctx pool id (fileExists env id w).2
        obtain ⟨hT1, hT2, hT3⟩ := trialSteps_silent hTs
        obtain ⟨hm1, hm2, hm3, hm4⟩ := trialMarker_paths pool id (fileExists env id w).2.clock
          (fileExists env id w).2.clock
        have hm5 : ¬ ((trialMarker pool id).stamp (fileExists env id w).2.clock
            (fileExists env id w).2.clock).isProbe pool.Name := by
          intro h
          cases h
        have hm6 : ((trialMarker pool id).stamp (fileExists env id w).2.clock
            (fileExists env id w).2.clock).isLoadKey = false := rfl
        generalize (trialMarker pool id).stamp (fileExists env id w).2.clock
          (fileExists env id w).2.clock = mk at hT hm1 hm2 hm3 hm4 hm5 hm6
        rw [hx] at hse
        simp only [hse, if_true] at hs3
        have hV1 : statPaths ([s] ++ ([mk] ++ T)) = [id] := by
          rw [statPaths_append, statPaths_append, hs1, hm1, hT1]; rfl
        have hV2 : existingPaths ([s] ++ ([mk] ++ T)) = [id] := by
          rw [existingPaths_append, existingPaths_append, hs3, hm3, hT2]; rfl
        have hV3 : triedIdentities ([s] ++ ([mk] ++ T)) = [id] := by
          rw [triedIdentities_append, triedIdentities_append, hs2, hm2, hT3]; rfl
        have hV5 : ∀ y ∈ [s] ++ ([mk] ++ T), ¬ y.isProbe pool.Name := by
          intro y hy
          simp only [List.mem_append, List.mem_singleton] at hy
          rcases hy with rfl | rfl | hy
          · exact hs5
          · exact hm5
          · exact not_probe_of_trialStep _ (hTs y hy)
        have hV4 : ∀ y ∈ [s] ++ ([mk] ++ T), ¬ y.confirms pool.Name :=
          fun y hy hc => hV5 y hy hc.1
        have htr : (tryIdentity env ctx pool id (fileExists env id w).2).2.trace =
            w.trace ++ ([s] ++ ([mk] ++ T)) := by
          rw [hT, hs]; simp
        cases ht : (tryIdentity env ctx pool id (fileExists env id w).2).1 with
        | some e =>
          simp only []
          obtain ⟨L, hL, hO⟩ := ih (tryIdentity env ctx pool id (fileExists env id w).2).2
          have hVf : ProbeFollows pool.Name ([s] ++ ([mk] ++ T)) := by
            apply ProbeFollows.of_no_load
            intro y hy hyl
            simp only [List.mem_append, List.mem_singleton] at hy
            rcases hy with rfl | rfl | hy
            · rw [hs6] at hyl; cases hyl
            · rw [hm6] at hyl; cases hyl
            · exact hTbad (by rw [ht]; simp) y hy hyl
          refine ⟨([s] ++ ([mk] ++ T)) ++ L, ?_, ?_⟩
          · rw [hL, htr, List.append_assoc]
          · exact TrialOrder.cons id _ (by rw [hV1]; simp [hid]) (by rw [hV3, hV2])
              (ProbeRule.of_no_probe hV5) hVf hV4 hO
        | none =>
          simp only []
          obtain ⟨hTend, c, d, l, r, hTeq, hcl, hdl, hll, hle, hrr, hrl⟩ := hTok ht
          have hVend : EndsWithLoadedKey ([s] ++ ([mk] ++ T)) := by
            rw [← List.append_assoc]
            exact hTend.append_left _
          obtain ⟨q, hq, hqc, -, -, hqa⟩ := getKeyStatus_event env ctx pool.Name
            (tryIdentity env ctx pool id (fileExists env id w).2).2
          have hql : q.isLoadKey = false := by simp [Event.isLoadKey, hqc]
          have hVq : ProbeFollows pool.Name (([s] ++ ([mk] ++ T)) ++ [q]) := by
            have hsplit : ([s] ++ ([mk] ++ T)) ++ [q] = [s, mk, c, d] ++ [l, r, q] := by
              rw [hTeq]; rfl
            rw [hsplit]
            apply ProbeFollows.concat
            · apply ProbeFollows.of_no_load
              intro y hy hyl
              simp only [List.mem_cons, List.mem_singleton, List.not_mem_nil, or_false] at hy
              rcases hy with rfl | rfl | rfl | rfl
              · rw [hs6] at hyl; cases hyl
              · rw [hm6] at hyl; cases hyl
              · rw [hcl] at hyl; cases hyl
              · rw [hdl] at hyl; cases hyl
            · exact ProbeFollows.triple l r q hrr hrl hqc hql
          by_cases hav : (getKeyStatus env ctx pool.Name
              (tryIdentity env ctx pool id (fileExists env id w).2).2).1.2 = none ∧
              (getKeyStatus env ctx pool.Name
                (tryIdentity env ctx pool id (fileExists env id w).2).2).1.1 = "available"
          · simp only [hav, and_self, if_true]
            refine ⟨([s] ++ ([mk] ++ T)) ++ [q], ?_, ?_⟩
            · rw [hq, htr, List.append_assoc]
            · exact TrialOrder.stop id rest _ q hV1 hV2 hV3 hV5 hVend hVq hid (hqa.mp hav)
          · simp only [hav, if_false]
            obtain ⟨L, hL, hO⟩ := ih (getKeyStatus env ctx pool.Name
              (tryIdentity env ctx pool id (fileExists env id w).2).2).2
            have hqn : ¬ q.confirms pool.Name := fun h => hav (hqa.mpr h)
            have hq3 : statPaths [q] = [] ∧ existingPaths [q] = [] ∧ triedIdentities [q] = [] := by
              simp [statPaths, existingPaths, triedIdentities, hqc]
            refine ⟨(([s] ++ ([mk] ++ T)) ++ [q]) ++ L, ?_, ?_⟩
            · rw [hL, hq, htr]; simp
            · refine TrialOrder.cons id _ ?_ ?_ (ProbeRule.snoc q hV5 hVend) hVq ?_ hO
              · rw [statPaths_append, hV1, hq3.1]; simp [hid]
              · rw [triedIdentities_append, existingPaths_append, hV3, hV2, hq3.2.1, hq3.2.2]
              · intro y hy
                rcases List.mem_append.mp hy with hy | hy
                · exact hV4 y hy
                · rw [List.mem_singleton] at hy
                  rw [hy]; exact hqn
      · have hx' : (fileExists env id w).1 = false := by simpa using hx
        simp only [hx', Bool.not_false, if_true]
        rw [hx'] at hse
        simp only [hse, Bool.false_eq_true, if_false] at hs3
        obtain ⟨L, hL, hO⟩ := ih (fileExists env id w).2
        refine ⟨[s] ++ L, ?_, ?_⟩
        · rw [hL, hs, List.append_assoc]
        · exact TrialOrder.cons id [s] (by rw [hs1]; simp [hid]) (by rw [hs2, hs3])
            (ProbeRule.of_no_probe
              (by intro y hy; rw [List.mem_singleton] at hy; rw [hy]; exact hs5))
            (ProbeFollows.of_no_load
              (by intro y hy hyl; rw [List.mem_singleton] at hy; rw [hy, hs6] at hyl; cases hyl))
            (by intro y hy; rw [List.mem_singleton] at hy; rw [hy]; exact hs4 _) hO

/-! ## The orchestrator -/

theorem readiness_chain (env : Env) (ctx : Context) (pool : PoolConfig) (w : World) :
    Adds (IsReadiness env pool) w (ensurePoolImported env ctx pool.Name w).2 ∧
    Adds (IsReadiness env pool) w
      (ensureKeystoreMounted env ctx pool.Name pool.EncryptedKeyFile
        (ensurePoolImported env ctx pool.Name w).2).2 ∧
    Adds (IsReadiness env pool) w
      (getKeyStatus env ctx pool.Name
        (ensureKeystoreMounted env ctx pool.Name pool.EncryptedKeyFile
          (ensurePoolImported env ctx pool.Name w).2).2).2 ∧
    Adds (IsReadiness env pool) w
      (fileExists env pool.EncryptedKeyFile
        (getKeyStatus env ctx pool.Name
          (ensureKeystoreMounted env ctx pool.Name pool.EncryptedKeyFile
            (ensurePoolImported env ctx pool.Name w).2).2).2).2 := by
  have h1 := ensurePoolImported_adds env ctx pool w
  have h2 := h1.trans (ensureKeystoreMounted_adds env ctx pool _)
  have h3 := h2.trans (getKeyStatus_adds env ctx pool _)
  have h4 := h3.trans (keyFileExists_adds env pool _)
  exact ⟨h1, h2, h3, h4⟩

/-- When the loop is reached, `unlockPoolOnce` is the loop run from the world
the readiness steps left. -/
theorem unlockPoolOnce_of_loopEntry (env : Env) (ctx : Context) (cfg : Config)
    (pool : PoolConfig) (w x : World) (h : loopEntry env ctx pool w = some x) :
    unlockPoolOnce env ctx cfg pool w = identityLoop env ctx pool cfg.IdentityFiles x ∧
      Adds (IsReadiness env pool) w x := by
  obtain ⟨-, -, -, h4⟩ := readiness_chain env ctx pool w
  cases hi : (ensurePoolImported env ctx pool.Name w).1 with
  | some e => simp [loopEntry, hi] at h
  | none =>
    cases hk : (ensureKeystoreMounted env ctx pool.Name pool.EncryptedKeyFile
        (ensurePoolImported env ctx pool.Name w).2).1 with
    | some e => simp [loopEntry, hi, hk] at h
    | none =>
      by_cases hs : (getKeyStatus env ctx pool.Name
          (ensureKeystoreMounted env ctx pool.Name pool.EncryptedKeyFile
            (ensurePoolImported env ctx pool.Name w).2).2).1.2 = none ∧
          (getKeyStatus env ctx pool.Name
            (ensureKeystoreMounted env ctx pool.Name pool.EncryptedKeyFile
              (ensurePoolImported env ctx pool.Name w).2).2).1.1 = "available"
      · simp [loopEntry, hi, hk, hs] at h
      · cases hx : (fileExists env pool.EncryptedKeyFile
            (getKeyStatus env ctx pool.Name
              (ensureKeystoreMounted env ctx pool.Name pool.EncryptedKeyFile
                (ensurePoolImported env ctx pool.Name w).2).2).2).1 with
        | false => simp [loopEntry, hi, hk, hs, hx] at h
        | true =>
          simp only [loopEntry, hi, hk, hs, hx, if_false, Bool.not_true, Bool.false_eq_true,
            Option.some.injEq] at h
          subst h
          refine ⟨?_, h4⟩
          simp only [unlockPoolOnce, hi, hk, hs, hx, if_false, Bool.not_true, Bool.false_eq_true]

/-- When the loop is not reached, `unlockPoolOnce` only ran readiness steps. -/
theorem unlockPoolOnce_of_no_loopEntry (env : Env) (ctx : Context) (cfg : Config)
    (pool : PoolConfig) (w : World) (h : loopEntry env ctx pool w = none) :
    Adds (IsReadiness env pool) w (unlockPoolOnce env ctx cfg pool w).2 := by
  obtain ⟨h1, h2, h3, h4⟩ := readiness_chain env ctx pool w
  cases hi : (ensurePoolImported env ctx pool.Name w).1 with
  | some e =>
    simp only [unlockPoolOnce, hi]
    exact h1
  | none =>
    cases hk : (ensureKeystoreMounted env ctx pool.Name pool.EncryptedKeyFile
        (ensurePoolImported env ctx pool.Name w).2).1 with
    | some e =>
      simp only [unlockPoolOnce, hi, hk]
      exact h2
    | none =>
      by_cases hs : (getKeyStatus env ctx pool.Name
          (ensureKeystoreMounted env ctx pool.Name pool.EncryptedKeyFile
            (ensurePoolImported env ctx pool.Name w).2).2).1.2 = none ∧
          (getKeyStatus env ctx pool.Name
            (ensureKeystoreMounted env ctx pool.Name pool.EncryptedKeyFile
              (ensurePoolImported env ctx pool.Name w).2).2).1.1 = "available"
      · simp only [unlockPoolOnce, hi, hk, hs, and_self, if_true]
        exact h3
      · cases hx : (fileExists env pool.EncryptedKeyFile
            (getKeyStatus env ctx pool.Name
              (ensureKeystoreMounted env ctx pool.Name pool.EncryptedKeyFile
                (ensurePoolImported env ctx pool.Name w).2).2).2).1 with
        | false =>
          simp only [unlockPoolOnce, hi, hk, hs, hx, if_false, Bool.not_false, if_true]
          exact h4
        | true =>
          simp [loopEntry, hi, hk, hs, hx] at h

theorem Adds.noTrial {env : Env} {pool : PoolConfig} {w w' : World}
    (h : Adds (IsReadiness env pool) w w') : NoTrial w w' := by
  have hn : ∀ e ∈ newEvents w w', e.isTrial = false :=
    fun e he => (h.forall_newEvents e he).not_trial
  exact ⟨triedIdentities_eq_nil hn, fun e he => not_decrypt_of_not_trial (hn e he)⟩

/-- When a return before the loop yields `nil`, it is the return after a
confirming first probe. -/
theorem unlockPoolOnce_early_success (env : Env) (ctx : Context) (cfg : Config)
    (pool : PoolConfig) (w : World) (hn : loopEntry env ctx pool w = none)
    (h : (unlockPoolOnce env ctx cfg pool w).1 = none) :
    ∃ evs e, newEvents w (unlockPoolOnce env ctx cfg pool w).2 = evs ++ [e] ∧
      e.confirms pool.Name := by
  obtain ⟨-, h2, -, -⟩ := readiness_chain env ctx pool w
  cases hi : (ensurePoolImported env ctx pool.Name w).1 with
  | some e => simp [unlockPoolOnce, hi] at h
  | none =>
    cases hk : (ensureKeystoreMounted env ctx pool.Name pool.EncryptedKeyFile
        (ensurePoolImported env ctx pool.Name w).2).1 with
    | some e => simp [unlockPoolOnce, hi, hk] at h
    | none =>
      by_cases hs : (getKeyStatus env ctx pool.Name
          (ensureKeystoreMounted env ctx pool.Name pool.EncryptedKeyFile
            (ensurePoolImported env ctx pool.Name w).2).2).1.2 = none ∧
          (getKeyStatus env ctx pool.Name
            (ensureKeystoreMounted env ctx pool.Name pool.EncryptedKeyFile
              (ensurePoolImported env ctx pool.Name w).2).2).1.1 = "available"
      · obtain ⟨q, hq, -, -, -, hqa⟩ := getKeyStatus_event env ctx pool.Name
          (ensureKeystoreMounted env ctx pool.Name pool.EncryptedKeyFile
            (ensurePoolImported env ctx pool.Name w).2).2
        refine ⟨newEvents w (ensureKeystoreMounted env ctx pool.Name pool.EncryptedKeyFile
          (ensurePoolImported env ctx pool.Name w).2).2, q, ?_, hqa.mp hs⟩
        apply newEvents_eq
        simp only [unlockPoolOnce, hi, hk, hs, and_self, if_true]
        rw [hq, h2.trace_eq, List.append_assoc]
      · cases hx : (fileExists env pool.EncryptedKeyFile
            (getKeyStatus env ctx pool.Name
              (ensureKeystoreMounted env ctx pool.Name pool.EncryptedKeyFile
                (ensurePoolImported env ctx pool.Name w).2).2).2).1 with
        | false =>
          simp only [unlockPoolOnce, hi, hk, hs, hx, if_false, Bool.not_false, if_true] at h
          cases h
        | true => simp [loopEntry, hi, hk, hs, hx] at hn

/-! ## Temporary key files across the loop -/

/-- The identity loop keeps every reflexive and transitive relation on worlds
that its three kinds of step keep. -/
theorem identityLoop_rel (env : Env) (ctx : Context) (pool : PoolConfig)
    (R : World → World → Prop) (hrefl : ∀ w, R w w)
    (htrans : ∀ a b c, R a b → R b c → R a c)
    (hstat : ∀ id w, R w (fileExists env id w).2)
    (htry : ∀ id w, R w (tryIdentity env ctx pool id w).2)
    (hprobe : ∀ w, R w (getKeyStatus env ctx pool.Name w).2) :
    ∀ (ids : List String) (w : World), R w (identityLoop env ctx pool ids w).2 := by
  intro ids
  induction ids with
  | nil => intro w; exact hrefl w
  | cons id rest ih =>
    intro w
    unfold identityLoop
    dsimp only
    have h1 := hstat id w
    have h2 := htrans _ _ _ h1 (htry id (fileExists env id w).2)
    have h3 := htrans _ _ _ h2
      (hprobe (tryIdentity env ctx pool id (fileExists env id w).2).2)
    split
    · exact ih w
    · split
      · exact htrans _ _ _ h1 (ih _)
      · split
        · exact htrans _ _ _ h2 (ih _)
        · split
          · exact h3
          · exact htrans _ _ _ h3 (ih _)

theorem Tick.rest (ctx : Context) (w : World) : Tick ctx w w :=
  ⟨[], by simp, le_refl _, by simp⟩

theorem Tick.chain {ctx : Context} {a b c : World} (h₁ : Tick ctx a b) (h₂ : Tick ctx b c) :
    Tick ctx a c := by
  obtain ⟨e₁, ht₁, hc₁, hd₁⟩ := h₁
  obtain ⟨e₂, ht₂, hc₂, hd₂⟩ := h₂
  refine ⟨e₁ ++ e₂, by rw [ht₂, ht₁, List.append_assoc], le_trans hc₁ hc₂, ?_⟩
  rintro ⟨e, he, hcan⟩
  rcases List.mem_append.mp he with h | h
  · exact le_trans (hd₁ ⟨e, h, hcan⟩) hc₂
  · exact hd₂ ⟨e, h, hcan⟩

/-- Recording an event that was not cancelled, at a time not before now. -/
theorem Tick.logged (ctx : Context) (w : World) (e : Event) (t : Int)
    (hc : e.cancelled = false) (ht : w.clock ≤ t) : Tick ctx w (w.record e t) := by
  refine ⟨[e.stamp w.clock t], rfl, ht, ?_⟩
  rintro ⟨x, hx, hcan⟩
  rw [List.mem_singleton] at hx
  rw [hx, Event.stamp_cancelled, hc] at hcan
  cases hcan

theorem runProcess_tick (env : Env) (ctx : Context) (name : String) (args : List String)
    (w : World) : Tick ctx w (runProcess env ctx name args w).2 := by
  unfold runProcess
  by_cases h1 : ctx.deadline ≤ w.clock
  · simp only [h1, if_true]
    exact ⟨_, rfl, le_refl _, fun _ => h1⟩
  · by_cases h2 : ctx.deadline < w.clock + (env.sys w (.exec name args)).dur
    · simp only [h1, h2, if_true, if_false]
      exact ⟨_, rfl, by simp only [World.record_clock]; omega, fun _ => le_refl _⟩
    · simp only [h1, h2, if_false]
      exact Tick.logged ctx w _ _ rfl (by omega)

/-- A command that returned no error was started before the deadline. -/
theorem runProcess_ok_started (env : Env) (ctx : Context) (name : String)
    (args : List String) (w : World) (h : (runProcess env ctx name args w).1.2 = none) :
    w.clock < ctx.deadline := by
  unfold runProcess at h
  by_cases h1 : ctx.deadline ≤ w.clock
  · simp [h1] at h
  · omega

theorem fileExists_tick (env : Env) (ctx : Context) (path : String) (w : World) :
    Tick ctx w (fileExists env path w).2 :=
  Tick.logged ctx w _ _ rfl (by omega)

theorem createTemp_tick (env : Env) (ctx : Context) (dir pattern : String) (w : World) :
    Tick ctx w (createTemp env dir pattern w).2 := by
  unfold createTemp
  dsimp only
  split
  · exact Tick.logged ctx w _ _ rfl (by omega)
  · split
    · exact Tick.logged ctx w _ _ rfl (by omega)
    · exact ⟨_, rfl, by simp only [World.record_clock]; omega, by simp⟩

theorem removeTemp_tick (env : Env) (ctx : Context) (path : String) (w : World) :
    Tick ctx w (removeTemp env path w) := by
  unfold removeTemp
  dsimp only
  split
  · exact ⟨_, rfl, by simp only [World.record_clock]; omega, by simp⟩
  · exact Tick.logged ctx w _ _ rfl (by omega)

theorem runCmd_tick (env : Env) (ctx : Context) (name : String) (args : List String)
    (w : World) : Tick ctx w (runCmd env ctx name args w).2 :=
  runProcess_tick env ctx name args w

theorem runCmdOutput_tick (env : Env) (ctx : Context) (name : String) (args : List String)
    (w : World) : Tick ctx w (runCmdOutput env ctx name args w).2 := by
  rw [runCmdOutput_world]
  exact runProcess_tick env ctx name args w

theorem getKeyStatus_tick (env : Env) (ctx : Context) (pool : String) (w : World) :
    Tick ctx w (getKeyStatus env ctx pool w).2 := by
  rw [getKeyStatus_world]
  exact runCmdOutput_tick env ctx _ _ w

theorem tryIdentity_tick (env : Env) (ctx : Context) (pool : PoolConfig) (identity : String)
    (w : World) : Tick ctx w (tryIdentity env ctx pool identity w).2 := by
  unfold tryIdentity
  dsimp only
  have hm : Tick ctx w (w.record ⟨.enterTryIdentity pool identity, none, "", false, 0, 0⟩ w.clock) :=
    Tick.logged ctx w _ _ rfl (le_refl _)
  have hc := hm.chain (createTemp_tick env ctx "/run" ("zfs-key-" ++ pool.Name ++ "-") _)
  split
  · exact hc
  · rename_i p _
    have hd := hc.chain (runProcess_tick env ctx "age"
      ["--decrypt", "-i", identity, pool.EncryptedKeyFile] _)
    split
    · exact hd.chain (removeTemp_tick env ctx p _)
    · have hl := hd.chain (runCmd_tick env ctx "zfs"
        ["load-key", "-L", "file://" ++ p, pool.Name] _)
      split
      · exact hl.chain (removeTemp_tick env ctx p _)
      · exact hl.chain (removeTemp_tick env ctx p _)

theorem ensurePoolImported_tick (env : Env) (ctx : Context) (pool : String) (w : World) :
    Tick ctx w (ensurePoolImported env ctx pool w).2 := by
  have h1 := runCmdOutput_tick env ctx "zpool" ["list", "-H", "-o", "name"] w
  have h2 := h1.chain (runCmd_tick env ctx "zpool" ["import", "-N", pool] _)
  unfold ensurePoolImported
  dsimp only
  split
  · exact h1
  · split
    · exact h1
    · split <;> exact h2

theorem ensureKeystoreMounted_tick (env : Env) (ctx : Context) (pool keyFile : String)
    (w : World) : Tick ctx w (ensureKeystoreMounted env ctx pool keyFile w).2 := by
  have h2 := (runCmd_tick env ctx "zfs" ["mount", pool ++ "/keystore"] w).chain
    (fileExists_tick env ctx (env.filepathDir keyFile) _)
  unfold ensureKeystoreMounted
  dsimp only
  split <;> exact h2

theorem identityLoop_tick (env : Env) (ctx : Context) (pool : PoolConfig) (ids : List String)
    (w : World) : Tick ctx w (identityLoop env ctx pool ids w).2 :=
  identityLoop_rel env ctx pool (Tick ctx) (Tick.rest ctx) (fun _ _ _ h₁ h₂ => h₁.chain h₂)
    (fun id w => fileExists_tick env ctx id w) (fun id w => tryIdentity_tick env ctx pool id w)
    (fun w => getKeyStatus_tick env ctx pool.Name w) ids w

/-- Before the deadline, nothing was cancelled. -/
theorem Tick.clean {ctx : Context} {w w' : World} (h : Tick ctx w w')
    (hc : w'.clock < ctx.deadline) : ∀ e ∈ newEvents w w', e.cancelled = false := by
  obtain ⟨evs, ht, -, hd⟩ := h
  rw [newEvents_eq ht]
  intro e he
  cases hcan : e.cancelled with
  | false => rfl
  | true =>
    have := hd ⟨e, he, hcan⟩
    omega

/-- A probe that returned no error: nothing was cancelled up to and including it. -/
theorem getKeyStatus_ok_clean (env : Env) (ctx : Context) (pool : String) (w₀ w : World)
    (h : Tick ctx w₀ w) (hok : (getKeyStatus env ctx pool w).1.2 = none) :
    ∀ e ∈ newEvents w₀ (getKeyStatus env ctx pool w).2, e.cancelled = false := by
  obtain ⟨q, hq, -, -, hqc, -⟩ := getKeyStatus_event env ctx pool w
  have hstart : w.clock < ctx.deadline := by
    apply runProcess_ok_started env ctx "zfs" ["get", "-H", "-o", "value", "keystatus", pool] w
    rw [← runCmdOutput_err]
    unfold getKeyStatus at hok
    dsimp only at hok
    split at hok
    · cases hok
    · assumption
  have hclean := h.clean hstart
  obtain ⟨evs, ht, -, -⟩ := h
  have hnew : newEvents w₀ (getKeyStatus env ctx pool w).2 = evs ++ [q] := by
    apply newEvents_eq
    rw [hq, ht, List.append_assoc]
  rw [newEvents_eq ht] at hclean
  rw [hnew]
  intro e he
  rcases List.mem_append.mp he with h | h
  · exact hclean e h
  · rw [List.mem_singleton] at h
    rw [h]
    exact hqc hok

/-- When a return before the loop yields `nil`, the run ended with the first
probe, which returned no error. -/
theorem unlockPoolOnce_early_success_eq (env : Env) (ctx : Context) (cfg : Config)
    (pool : PoolConfig) (w : World) (hn : loopEntry env ctx pool w = none)
    (h : (unlockPoolOnce env ctx cfg pool w).1 = none) :
    (getKeyStatus env ctx pool.Name
      (ensureKeystoreMounted env ctx pool.Name pool.EncryptedKeyFile
        (ensurePoolImported env ctx pool.Name w).2).2).1.2 = none ∧
    (unlockPoolOnce env ctx cfg pool w).2 =
      (getKeyStatus env ctx pool.Name
        (ensureKeystoreMounted env ctx pool.Name pool.EncryptedKeyFile
          (ensurePoolImported env ctx pool.Name w).2).2).2 := by
  cases hi : (ensurePoolImported env ctx pool.Name w).1 with
  | some e => simp [unlockPoolOnce, hi] at h
  | none =>
    cases hk : (ensureKeystoreMounted env ctx pool.Name pool.EncryptedKeyFile
        (ensurePoolImported env ctx pool.Name w).2).1 with
    | some e => simp [unlockPoolOnce, hi, hk] at h
    | none =>
      by_cases hs : (getKeyStatus env ctx pool.Name
          (ensureKeystoreMounted env ctx pool.Name pool.EncryptedKeyFile
            (ensurePoolImported env ctx pool.Name w).2).2).1.2 = none ∧
          (getKeyStatus env ctx pool.Name
            (ensureKeystoreMounted env ctx pool.Name pool.EncryptedKeyFile
              (ensurePoolImported env ctx pool.Name w).2).2).1.1 = "available"
      · refine ⟨hs.1, ?_⟩
        simp only [unlockPoolOnce, hi, hk, hs, and_self, if_true]
      · cases hx : (fileExists env pool.EncryptedKeyFile
            (getKeyStatus env ctx pool.Name
              (ensureKeystoreMounted env ctx pool.Name pool.EncryptedKeyFile
                (ensurePoolImported env ctx pool.Name w).2).2).2).1 with
        | false =>
          simp only [unlockPoolOnce, hi, hk, hs, hx, if_false, Bool.not_false, if_true] at h
          cases h
        | true => simp [loopEntry, hi, hk, hs, hx] at hn

theorem readiness_tick (env : Env) (ctx : Context) (pool : PoolConfig) (w : World) :
    Tick ctx w (ensureKeystoreMounted env ctx pool.Name pool.EncryptedKeyFile
        (ensurePoolImported env ctx pool.Name w).2).2 ∧
    Tick ctx w
      (fileExists env pool.EncryptedKeyFile
        (getKeyStatus env ctx pool.Name
          (ensureKeystoreMounted env ctx pool.Name pool.EncryptedKeyFile
            (ensurePoolImported env ctx pool.Name w).2).2).2).2 := by
  have h1 := ensurePoolImported_tick env ctx pool.Name w
  have h2 := h1.chain (ensureKeystoreMounted_tick env ctx pool.Name pool.EncryptedKeyFile _)
  have h3 := h2.chain (getKeyStatus_tick env ctx pool.Name _)
  exact ⟨h2, h3.chain (fileExists_tick env ctx pool.EncryptedKeyFile _)⟩

theorem loopEntry_tick (env : Env) (ctx : Context) (pool : PoolConfig) (w x : World)
    (h : loopEntry env ctx pool w = some x) : Tick ctx w x := by
  obtain ⟨-, h4⟩ := readiness_tick env ctx pool w
  unfold loopEntry at h
  dsimp only at h
  split at h
  · cases h
  · split at h
    · cases h
    · split at h
      · cases h
      · split at h
        · cases h
        · cases h
          exact h4

/-- When the identity loop returns `nil`, nothing was cancelled. -/
theorem identityLoop_success_clean (env : Env) (ctx : Context) (pool : PoolConfig)
    (w₀ : World) :
    ∀ (ids : List String) (w : World), Tick ctx w₀ w →
      (identityLoop env ctx pool ids w).1 = none →
      ∀ e ∈ newEvents w₀ (identityLoop env ctx pool ids w).2, e.cancelled = false := by
  intro ids
  induction ids with
  | nil =>
    intro w _ h
    simp [identityLoop] at h
  | cons id rest ih =>
    intro w hw
    unfold identityLoop
    dsimp only
    have h1 := hw.chain (fileExists_tick env ctx id w)
    have h2 := h1.chain (tryIdentity_tick env ctx pool id (fileExists env id w).2)
    have h3 := h2.chain (getKeyStatus_tick env ctx pool.Name
      (tryIdentity env ctx pool id (fileExists env id w).2).2)
    split
    · exact ih w hw
    · split
      · exact ih _ h1
      · split
        · exact ih _ h2
        · split
          · rename_i hav
            intro _
            exact getKeyStatus_ok_clean env ctx pool.Name w₀ _ h2 hav.1
          · exact ih _ h3

/-- When `unlockPoolOnce` returns `nil`, nothing was cancelled. -/
theorem unlockPoolOnce_success_clean (env : Env) (ctx : Context) (cfg : Config)
    (pool : PoolConfig) (w : World) (h : (unlockPoolOnce env ctx cfg pool w).1 = none) :
    ∀ e ∈ newEvents w (unlockPoolOnce env ctx cfg pool w).2, e.cancelled = false := by
  cases hn : loopEntry env ctx pool w with
  | none =>
    obtain ⟨hok, heq⟩ := unlockPoolOnce_early_success_eq env ctx cfg pool w hn h
    rw [heq]
    exact getKeyStatus_ok_clean env ctx pool.Name w _ (readiness_tick env ctx pool w).1 hok
  | some x =>
    obtain ⟨heq, -⟩ := unlockPoolOnce_of_loopEntry env ctx cfg pool w x hn
    rw [heq] at h ⊢
    exact identityLoop_success_clean env ctx pool w cfg.IdentityFiles x
      (loopEntry_tick env ctx pool w x hn) h

/-- The identity loop returns `nil` or the error that no identity could
unlock the pool. -/
theorem identityLoop_result (env : Env) (ctx : Context) (pool : PoolConfig)
    (ids : List String) (w : World) :
    (identityLoop env ctx pool ids w).1 = none ∨
      (identityLoop env ctx pool ids w).1 =
        some ("no identity could unlock pool " ++ pool.Name) := by
  obtain ⟨L, -, pre, suf, -, -, -, -, -, hend⟩ := identityLoop_order env ctx pool ids w
  rcases hend with ⟨_, _, _, _, _, -, -, -, -, -, hres⟩ | ⟨-, -, hres⟩
  · exact Or.inl hres
  · exact Or.inr hres

/-- A command that returned no error ended by the deadline. -/
theorem runProcess_ok_clock (env : Env) (ctx : Context) (name : String)
    (args : List String) (w : World) (h : (runProcess env ctx name args w).1.2 = none) :
    (runProcess env ctx name args w).2.clock ≤ ctx.deadline := by
  unfold runProcess at h ⊢
  by_cases h1 : ctx.deadline ≤ w.clock
  · simp [h1] at h
  · by_cases h2 : ctx.deadline < w.clock + (env.sys w (.exec name args)).dur
    · simp [h1, h2] at h
    · simp only [h1, h2, if_false, World.record_clock]
      omega

theorem getKeyStatus_ok_clock (env : Env) (ctx : Context) (pool : String) (w : World)
    (h : (getKeyStatus env ctx pool w).1.2 = none) :
    (getKeyStatus env ctx pool w).2.clock ≤ ctx.deadline := by
  rw [getKeyStatus_world, runCmdOutput_world]
  apply runProcess_ok_clock
  rw [← runCmdOutput_err]
  unfold getKeyStatus at h
  dsimp only at h
  split at h
  · cases h
  · assumption

/-- When the identity loop returns `nil`, it ended by the deadline. -/
theorem identityLoop_success_clock (env : Env) (ctx : Context) (pool : PoolConfig) :
    ∀ (ids : List String) (w : World), (identityLoop env ctx pool ids w).1 = none →
      (identityLoop env ctx pool ids w).2.clock ≤ ctx.deadline := by
  intro ids
  induction ids with
  | nil =>
    intro w h
    simp [identityLoop] at h
  | cons id rest ih =>
    intro w
    unfold identityLoop
    dsimp only
    split
    · exact ih w
    · split
      · exact ih _
      · split
        · exact ih _
        · split
          · rename_i hav
            intro _
            exact getKeyStatus_ok_clock env ctx pool.Name _ hav.1
          · exact ih _

/-- When `unlockPoolOnce` returns `nil`, it ended by the deadline. -/
theorem unlockPoolOnce_success_clock (env : Env) (ctx : Context) (cfg : Config)
    (pool : PoolConfig) (w : World) (h : (unlockPoolOnce env ctx cfg pool w).1 = none) :
    (unlockPoolOnce env ctx cfg pool w).2.clock ≤ ctx.deadline := by
  cases hn : loopEntry env ctx pool w with
  | none =>
    obtain ⟨hok, heq⟩ := unlockPoolOnce_early_success_eq env ctx cfg pool w hn h
    rw [heq]
    exact getKeyStatus_ok_clock env ctx pool.Name _ hok
  | some x =>
    obtain ⟨heq, -⟩ := unlockPoolOnce_of_loopEntry env ctx cfg pool w x hn
    rw [heq] at h ⊢
    exact identityLoop_success_clock env ctx pool cfg.IdentityFiles x h

/-- The orchestrator keeps every transitive relation on worlds that its steps
keep. -/
theorem unlockPoolOnce_rel (env : Env) (ctx : Context) (cfg : Config) (pool : PoolConfig)
    (R : World → World → Prop) (htrans : ∀ a b c, R a b → R b c → R a c)
    (himport : ∀ w, R w (ensurePoolImported env ctx pool.Name w).2)
    (hkeystore : ∀ w, R w (ensureKeystoreMounted env ctx pool.Name pool.EncryptedKeyFile w).2)
    (hprobe : ∀ w, R w (getKeyStatus env ctx pool.Name w).2)
    (hstat : ∀ w, R w (fileExists env pool.EncryptedKeyFile w).2)
    (hloop : ∀ w, R w (identityLoop env ctx pool cfg.IdentityFiles w).2) (w : World) :
    R w (unlockPoolOnce env ctx cfg pool w).2 := by
  have h1 := himport w
  have h2 := htrans _ _ _ h1 (hkeystore _)
  have h3 := htrans _ _ _ h2 (hprobe _)
  have h4 := htrans _ _ _ h3 (hstat _)
  have h5 := htrans _ _ _ h4 (hloop _)
  unfold unlockPoolOnce
  dsimp only
  split
  · exact h1
  · split
    · exact h2
    · split
      · exact h3
      · split
        · exact h4
        · exact h5

theorem unlockPoolOnce_tick (env : Env) (ctx : Context) (cfg : Config) (pool : PoolConfig)
    (w : World) : Tick ctx w (unlockPoolOnce env ctx cfg pool w).2 :=
  unlockPoolOnce_rel env ctx cfg pool (Tick ctx) (fun _ _ _ h₁ h₂ => h₁.chain h₂)
    (fun w => ensurePoolImported_tick env ctx pool.Name w)
    (fun w => ensureKeystoreMounted_tick env ctx pool.Name pool.EncryptedKeyFile w)
    (fun w => getKeyStatus_tick env ctx pool.Name w)
    (fun w => fileExists_tick env ctx pool.EncryptedKeyFile w)
    (fun w => identityLoop_tick env ctx pool cfg.IdentityFiles w) w

/-- The events of `unlockPoolWithTimeout`: the entry marker, then the events of
`unlockPoolOnce` under the new deadline. -/
theorem unlockPoolWithTimeout_newEvents (env : Env) (cfg : Config) (pool : PoolConfig)
    (timeout : Int) (w : World) :
    newEvents w (unlockPoolWithTimeout env cfg pool timeout w).2 =
      (poolMarker pool).stamp w.clock w.clock :: newEvents (w.record (poolMarker pool) w.clock)
        (unlockPoolOnce env ⟨w.clock + timeout⟩ cfg pool
          (w.record (poolMarker pool) w.clock)).2 := by
  obtain ⟨evs, he, -, -⟩ := unlockPoolOnce_tick env ⟨w.clock + timeout⟩ cfg pool
    (w.record (poolMarker pool) w.clock)
  rw [newEvents_eq he]
  apply newEvents_eq
  show (unlockPoolOnce env ⟨w.clock + timeout⟩ cfg pool
    (w.record (poolMarker pool) w.clock)).2.trace = _
  rw [he, World.record_trace, List.append_assoc]
  rfl

/-! ## The fleet driver -/

theorem keystore_ne_dash_a (pool : String) : pool ++ "/keystore" ≠ "-a" := by
  intro h
  have hl := congrArg String.length h
  rw [String.length_append] at hl
  have h9 : "/keystore".length = 9 := by decide
  have h2 : "-a".length = 2 := by decide
  omega

theorem IsReadiness.poolStep {env : Env} {pool : PoolConfig} {e : Event}
    (h : IsReadiness env pool e) : e.isPoolStep = true := by
  unfold IsReadiness readinessCalls at h
  simp only [List.mem_cons, List.mem_singleton, List.not_mem_nil, or_false] at h
  rcases h with h | h | h | h | h | h <;>
    simp [Event.isPoolStep, Event.isMountAll, h, keystore_ne_dash_a]

theorem poolStep_of_trialStep {e : Event} (h : e.isTrialStep = true) : e.isPoolStep = true := by
  cases hc : e.call with
  | exec n a =>
    simp only [Event.isTrialStep, Event.isDecrypt, Event.isLoadKey, hc, Bool.or_eq_true,
      beq_iff_eq, Bool.and_eq_true] at h
    rcases h with h | ⟨h1, h2⟩
    · simp [Event.isPoolStep, Event.isMountAll, hc, h]
    · have : a ≠ ["mount", "-a"] := by
        intro ha
        rw [ha] at h2
        simp at h2
      simp [Event.isPoolStep, Event.isMountAll, hc, this]
  | stat p => simp [Event.isTrialStep, Event.isDecrypt, Event.isLoadKey, hc] at h
  | createTemp d p => simp [Event.isPoolStep, Event.isMountAll, hc]
  | remove p => simp [Event.isPoolStep, Event.isMountAll, hc]
  | enterTryIdentity p i => simp [Event.isTrialStep, Event.isDecrypt, Event.isLoadKey, hc] at h
  | enterUnlockPool p => simp [Event.isTrialStep, Event.isDecrypt, Event.isLoadKey, hc] at h

theorem tryIdentity_poolSteps (env : Env) (ctx : Context) (pool : PoolConfig) (id : String)
    (w : World) :
    Adds (fun e => e.isPoolStep = true) w (tryIdentity env ctx pool id w).2 := by
  have hm : Adds (fun e => e.isPoolStep = true) w (w.record (trialMarker pool id) w.clock) :=
    Adds.record _ w _ _ rfl
  exact hm.trans ((tryIdentity_steps env ctx pool id w).mono fun e => poolStep_of_trialStep)

/-- Every event of `unlockPoolOnce` is a step of the orchestration. -/
theorem unlockPoolOnce_poolSteps (env : Env) (ctx : Context) (cfg : Config) (pool : PoolConfig)
    (w : World) :
    Adds (fun e => e.isPoolStep = true) w (unlockPoolOnce env ctx cfg pool w).2 := by
  have hprobe : ∀ w, Adds (fun e => e.isPoolStep = true) w (getKeyStatus env ctx pool.Name w).2 :=
    fun w => (getKeyStatus_adds env ctx pool w).mono fun e => IsReadiness.poolStep
  have hstat : ∀ id w, Adds (fun e => e.isPoolStep = true) w (fileExists env id w).2 := by
    intro id w
    obtain ⟨e, he, hc, -⟩ := fileExists_event env id w
    exact ⟨[e], he, by simp [Event.isPoolStep, Event.isMountAll, hc]⟩
  exact unlockPoolOnce_rel env ctx cfg pool _ (fun _ _ _ h₁ h₂ => h₁.trans h₂)
    (fun w => (ensurePoolImported_adds env ctx pool w).mono fun e => IsReadiness.poolStep)
    (fun w => (ensureKeystoreMounted_adds env ctx pool w).mono fun e => IsReadiness.poolStep)
    hprobe (fun w => hstat _ w)
    (fun w => identityLoop_rel env ctx pool _ (Adds.refl _) (fun _ _ _ h₁ h₂ => h₁.trans h₂)
      hstat (fun id w => tryIdentity_poolSteps env ctx pool id w) hprobe cfg.IdentityFiles w) w

theorem poolSteps_silent {evs : List Event} (h : ∀ e ∈ evs, e.isPoolStep = true) :
    orchestratedPools evs = [] ∧ ∀ e ∈ evs, e.isMountAll = false := by
  constructor
  · unfold orchestratedPools
    rw [List.filterMap_eq_nil_iff]
    intro e he
    have := h e he
    cases hc : e.call <;> simp_all [Event.isPoolStep]
  · intro e he
    have := h e he
    cases hc : e.call <;> simp_all [Event.isPoolStep, Event.isMountAll]
    tauto

/-- The events of one orchestration: its entry marker, then pool steps. -/
theorem unlockPoolWithTimeout_events (env : Env) (cfg : Config) (pool : PoolConfig)
    (timeout : Int) (w : World) :
    ∃ evs, (unlockPoolWithTimeout env cfg pool timeout w).2.trace =
        w.trace ++ (poolMarker pool).stamp w.clock w.clock :: evs ∧
      ∀ e ∈ evs, e.isPoolStep = true := by
  obtain ⟨evs, he, hP⟩ := unlockPoolOnce_poolSteps env ⟨w.clock + timeout⟩ cfg pool
    (w.record (poolMarker pool) w.clock)
  refine ⟨evs, ?_, hP⟩
  show (unlockPoolOnce env ⟨w.clock + timeout⟩ cfg pool
    (w.record (poolMarker pool) w.clock)).2.trace = _
  rw [he, World.record_trace, List.append_assoc]
  rfl

theorem poolLoop_cons_incomplete (env : Env) (cfg : Config) (timeout : Int) (p : PoolConfig)
    (ps : List PoolConfig) (b : Bool) (w : World) (hp : p.complete = false) :
    poolLoop env cfg timeout (p :: ps) b w = poolLoop env cfg timeout ps b w := by
  have : p.Name = "" ∨ p.EncryptedKeyFile = "" := by
    simp only [PoolConfig.complete, Bool.not_eq_false', Bool.or_eq_true, beq_iff_eq] at hp
    exact hp
  simp only [poolLoop, this, if_true]

theorem poolLoop_cons_complete (env : Env) (cfg : Config) (timeout : Int) (p : PoolConfig)
    (ps : List PoolConfig) (b : Bool) (w : World) (hp : p.complete = true) :
    poolLoop env cfg timeout (p :: ps) b w =
      poolLoop env cfg timeout ps
        (b || (unlockPoolWithTimeout env cfg p timeout w).1.isSome)
        (unlockPoolWithTimeout env cfg p timeout w).2 := by
  have : ¬ (p.Name = "" ∨ p.EncryptedKeyFile = "") := by
    simp only [PoolConfig.complete, Bool.not_eq_true', Bool.or_eq_false_iff, beq_eq_false_iff_ne,
      ne_eq] at hp
    exact fun h => h.elim hp.1 hp.2
  simp only [poolLoop, this, if_false]
  cases (unlockPoolWithTimeout env cfg p timeout w).1 <;> simp

/-- The world the loop over the pools leaves does not depend on `hadErr`. -/
theorem poolLoop_world (env : Env) (cfg : Config) (timeout : Int) :
    ∀ (ps : List PoolConfig) (b b' : Bool) (w : World),
      (poolLoop env cfg timeout ps b w).2 = (poolLoop env cfg timeout ps b' w).2 := by
  intro ps
  induction ps with
  | nil => intro b b' w; rfl
  | cons p ps ih =>
    intro b b' w
    cases hp : p.complete with
    | false => rw [poolLoop_cons_incomplete _ _ _ _ _ _ _ hp,
        poolLoop_cons_incomplete _ _ _ _ _ _ _ hp]; exact ih b b' w
    | true => rw [poolLoop_cons_complete _ _ _ _ _ _ _ hp,
        poolLoop_cons_complete _ _ _ _ _ _ _ hp]; exact ih _ _ _

/-- The loop over the pools: its events, and when `hadErr` ends up set. -/
theorem poolLoop_spec (env : Env) (cfg : Config) (timeout : Int) :
    ∀ (ps : List PoolConfig) (b : Bool) (w : World),
      (∃ evs, (poolLoop env cfg timeout ps b w).2.trace = w.trace ++ evs ∧
        orchestratedPools evs = ps.filter PoolConfig.complete ∧
        ∀ e ∈ evs, e.isMountAll = false) ∧
      ((poolLoop env cfg timeout ps b w).1 = true ↔
        b = true ∨ ∃ pre p suf, ps = pre ++ p :: suf ∧ p.complete = true ∧
          (unlockPoolWithTimeout env cfg p timeout
            (poolLoop env cfg timeout pre false w).2).1 ≠ none) := by
  intro ps
  induction ps with
  | nil =>
    intro b w
    refine ⟨⟨[], by simp [poolLoop], rfl, by simp⟩, ?_⟩
    simp [poolLoop]
  | cons p ps ih =>
    intro b w
    cases hp : p.complete with
    | false =>
      rw [poolLoop_cons_incomplete _ _ _ _ _ _ _ hp]
      obtain ⟨⟨evs, he, ho, hm⟩, hiff⟩ := ih b w
      refine ⟨⟨evs, he, ?_, hm⟩, ?_⟩
      · rw [ho, List.filter_cons_of_neg (by simp [hp])]
      · rw [hiff]
        constructor
        · rintro (h | ⟨pre, q, suf, hps, hq, hfail⟩)
          · exact Or.inl h
          · refine Or.inr ⟨p :: pre, q, suf, by simp [hps], hq, ?_⟩
            rw [poolLoop_cons_incomplete _ _ _ _ _ _ _ hp]
            exact hfail
        · rintro (h | ⟨pre, q, suf, hps, hq, hfail⟩)
          · exact Or.inl h
          · cases pre with
            | nil =>
              simp only [List.nil_append, List.cons.injEq] at hps
              rw [← hps.1, hp] at hq
              cases hq
            | cons a pre =>
              simp only [List.cons_append, List.cons.injEq] at hps
              rw [← hps.1, poolLoop_cons_incomplete _ _ _ _ _ _ _ hp] at hfail
              exact Or.inr ⟨pre, q, suf, hps.2, hq, hfail⟩
    | true =>
      rw [poolLoop_cons_complete _ _ _ _ _ _ _ hp]
      obtain ⟨⟨evs, he, ho, hm⟩, hiff⟩ :=
        ih (b || (unlockPoolWithTimeout env cfg p timeout w).1.isSome)
          (unlockPoolWithTimeout env cfg p timeout w).2
      obtain ⟨pe, hpe, hps⟩ := unlockPoolWithTimeout_events env cfg p timeout w
      obtain ⟨hs1, hs2⟩ := poolSteps_silent hps
      refine ⟨⟨(poolMarker p).stamp w.clock w.clock :: pe ++ evs, ?_, ?_, ?_⟩, ?_⟩
      · rw [he, hpe]; simp
      · rw [orchestratedPools_append, ho, List.filter_cons_of_pos (by simp [hp])]
        have : orchestratedPools ((poolMarker p).stamp w.clock w.clock :: pe) =
            p :: orchestratedPools pe := rfl
        rw [this, hs1]
        rfl
      · intro e he'
        simp only [List.cons_append, List.mem_cons, List.mem_append] at he'
        rcases he' with h | h | h
        · rw [h]; rfl
        · exact hs2 e h
        · exact hm e h
      · rw [hiff]
        constructor
        · rintro (h | ⟨pre, q, suf, hpsq, hq, hfail⟩)
          · rw [Bool.or_eq_true] at h
            rcases h with h | h
            · exact Or.inl h
            · refine Or.inr ⟨[], p, ps, rfl, hp, ?_⟩
              intro hnone
              simp only [poolLoop] at hnone
              rw [hnone] at h
              cases h
          · refine Or.inr ⟨p :: pre, q, suf, by simp [hpsq], hq, ?_⟩
            rw [poolLoop_cons_complete _ _ _ _ _ _ _ hp,
              poolLoop_world env cfg timeout pre _ false]
            exact hfail
        · rintro (h | ⟨pre, q, suf, hpsq, hq, hfail⟩)
          · exact Or.inl (by simp [h])
          · cases pre with
            | nil =>
              simp only [List.nil_append, List.cons.injEq] at hpsq
              left
              rw [← hpsq.1] at hfail
              simp only [poolLoop] at hfail
              rw [Bool.or_eq_true]
              right
              exact Option.isSome_iff_ne_none.mpr hfail
            | cons a pre =>
              simp only [List.cons_append, List.cons.injEq] at hpsq
              right
              rw [← hpsq.1, poolLoop_cons_complete _ _ _ _ _ _ _ hp,
                poolLoop_world env cfg timeout pre _ false] at hfail
              exact ⟨pre, q, suf, hpsq.2, hq, hfail⟩

theorem main_eq_fleetDriver (env : Env) (cfg : Config) (timeout : Int) (w : World)
    (hp : cfg.Pools ≠ []) (hi : cfg.IdentityFiles ≠ []) :
    main env (some cfg) timeout w = fleetDriver env cfg timeout w := by
  have h1 : ¬ cfg.Pools.length = 0 := fun h => hp (List.length_eq_zero.mp h)
  have h2 : ¬ cfg.IdentityFiles.length = 0 := fun h => hi (List.length_eq_zero.mp h)
  simp only [main, h1, h2, if_false]

theorem anyPoolFailed_iff (env : Env) (cfg : Config) (timeout : Int) (w : World) :
    AnyPoolFailed env cfg timeout w ↔
      (poolLoop env cfg timeout cfg.Pools false w).1 = true := by
  rw [(poolLoop_spec env cfg timeout cfg.Pools false w).2]
  simp [AnyPoolFailed]

/-- The events of the fleet driver: those of the loop over the pools, followed
by the mount pass exactly when `hadErr` stayed unset. -/
theorem fleetDriver_events (env : Env) (cfg : Config) (timeout : Int) (w : World) :
    ((poolLoop env cfg timeout cfg.Pools false w).1 = true →
      fleetDriver env cfg timeout w = (1, (poolLoop env cfg timeout cfg.Pools false w).2)) ∧
    ((poolLoop env cfg timeout cfg.Pools false w).1 = false →
      (fleetDriver env cfg timeout w).1 = 0 ∧
      ∃ e, (fleetDriver env cfg timeout w).2.trace =
          (poolLoop env cfg timeout cfg.Pools false w).2.trace ++ [e] ∧
        e.call = .exec "zfs" ["mount", "-a"]) := by
  constructor
  · intro h
    simp only [fleetDriver, h, if_true]
  · intro h
    obtain ⟨e, he, hc, -⟩ := runCmd_event env
      ⟨(poolLoop env cfg timeout cfg.Pools false w).2.clock + sixtySeconds⟩ "zfs" ["mount", "-a"]
      (poolLoop env cfg timeout cfg.Pools false w).2
    simp only [fleetDriver, h, Bool.false_eq_true, if_false]
    exact ⟨trivial, e, he, hc⟩

/-! ## Lines and white space -/

theorem trimChars_cons_space {c : Char} (l : List Char) (h : isSpace c = true) :
    trimChars (c :: l) = trimChars l := by
  unfold trimChars
  rw [List.dropWhile_cons_of_pos h]

theorem trimChars_of_allSpace {l : List Char} (h : AllSpace l) : trimChars l = [] := by
  unfold trimChars
  rw [List.dropWhile_eq_nil_iff.mpr h]
  rfl

theorem trimChars_append_space (l : List Char) {u : List Char} (h : AllSpace u) :
    trimChars (l ++ u) = trimChars l := by
  unfold trimChars
  rw [List.dropWhile_append]
  by_cases hd : (List.dropWhile isSpace l).isEmpty = true
  · rw [if_pos hd, List.dropWhile_eq_nil_iff.mpr h, List.isEmpty_iff.mp hd]
  · rw [if_neg hd, List.reverse_append, List.dropWhile_append_of_pos]
    intro a ha
    exact h a (List.mem_reverse.mp ha)

theorem splitLines_ne_nil (s : List Char) : splitLines s ≠ [] := by
  cases s with
  | nil => simp [splitLines]
  | cons c cs =>
    unfold splitLines
    split
    · simp
    · split <;> simp

theorem splitLines_cons_newline (s : List Char) : splitLines ('\n' :: s) = [] :: splitLines s := by
  simp [splitLines]

theorem splitLines_cons_other {c : Char} (s : List Char) (hc : c ≠ '\n') : ∃ a b, splitLines s = a :: b ∧ splitLines (c :: s) = (c :: a) :: b := by
  cases hs : splitLines s with
  | nil => exact absurd hs (splitLines_ne_nil s)
  | cons a b =>
    refine ⟨a, b, rfl, ?_⟩
    rw [splitLines, if_neg hc, hs]

theorem splitLines_allSpace {s : List Char} (h : AllSpace s) :
    ∀ l ∈ splitLines s, AllSpace l := by
  induction s with
  | nil =>
    intro l hl
    simp only [splitLines, List.mem_singleton] at hl
    rw [hl]
    intro c hc
    cases hc
  | cons c cs ih =>
    have hcs : AllSpace cs := fun x hx => h x (List.mem_cons_of_mem _ hx)
    have hc : isSpace c = true := h c (List.mem_cons_self _ _)
    intro l hl
    by_cases hn : c = '\n'
    · rw [hn, splitLines_cons_newline] at hl
      rcases List.mem_cons.mp hl with h1 | h1
      · rw [h1]
        intro x hx
        cases hx
      · exact ih hcs l h1
    · obtain ⟨a, b, hab, hcab⟩ := splitLines_cons_other cs hn
      rw [hcab] at hl
      rcases List.mem_cons.mp hl with h1 | h1
      · rw [h1]
        intro x hx
        rcases List.mem_cons.mp hx with h2 | h2
        · rw [h2]; exact hc
        · exact ih hcs a (by rw [hab]; exact List.mem_cons_self _ _) x h2
      · exact ih hcs l (by rw [hab]; exact List.mem_cons_of_mem _ h1)

/-- White space in front of a text does not change which non-empty names are
among its trimmed lines. -/
theorem hasLine_space_append {p : List Char} (hp : p ≠ []) {A : List Char} (hA : AllSpace A)
    (s : List Char) : HasLine p (A ++ s) ↔ HasLine p s := by
  induction A with
  | nil => rfl
  | cons c A ih =>
    have hA' : AllSpace A := fun x hx => hA x (List.mem_cons_of_mem _ hx)
    have hc : isSpace c = true := hA c (List.mem_cons_self _ _)
    rw [← ih hA']
    unfold HasLine
    rw [List.cons_append]
    by_cases hn : c = '\n'
    · rw [hn, splitLines_cons_newline]
      constructor
      · rintro ⟨l, hl, ht⟩
        rcases List.mem_cons.mp hl with h1 | h1
        · rw [h1] at ht
          exact absurd ht.symm hp
        · exact ⟨l, h1, ht⟩
      · rintro ⟨l, hl, ht⟩
        exact ⟨l, List.mem_cons_of_mem _ hl, ht⟩
    · obtain ⟨a, b, hab, hcab⟩ := splitLines_cons_other (A ++ s) hn
      rw [hcab, hab]
      constructor
      · rintro ⟨l, hl, ht⟩
        rcases List.mem_cons.mp hl with h1 | h1
        · rw [h1, trimChars_cons_space a hc] at ht
          exact ⟨a, List.mem_cons_self _ _, ht⟩
        · exact ⟨l, List.mem_cons_of_mem _ h1, ht⟩
      · rintro ⟨l, hl, ht⟩
        rcases List.mem_cons.mp hl with h1 | h1
        · rw [h1] at ht
          exact ⟨c :: a, List.mem_cons_self _ _, by rw [trimChars_cons_space a hc]; exact ht⟩
        · exact ⟨l, List.mem_cons_of_mem _ h1, ht⟩

/-- The lines of a text followed by white space: the last line of the text
grows by white space, and lines of white space follow. -/
theorem splitLines_append_space {B : List Char} (hB : AllSpace B) (s : List Char) :
    ∃ front last u v, splitLines s = front ++ [last] ∧
      splitLines (s ++ B) = front ++ [last ++ u] ++ v ∧
      AllSpace u ∧ ∀ l ∈ v, AllSpace l := by
  induction s with
  | nil =>
    cases hs : splitLines B with
    | nil => exact absurd hs (splitLines_ne_nil B)
    | cons a b =>
      have hall := splitLines_allSpace hB
      rw [hs] at hall
      refine ⟨[], [], a, b, rfl, by simp [hs], hall a (List.mem_cons_self _ _), ?_⟩
      intro l hl
      exact hall l (List.mem_cons_of_mem _ hl)
  | cons c cs ih =>
    obtain ⟨front, last, u, v, h1, h2, hu, hv⟩ := ih
    by_cases hn : c = '\n'
    · refine ⟨[] :: front, last, u, v, ?_, ?_, hu, hv⟩
      · rw [hn, splitLines_cons_newline, h1]; rfl
      · rw [hn, List.cons_append, splitLines_cons_newline, h2]; rfl
    · obtain ⟨a, b, hab, hcab⟩ := splitLines_cons_other cs hn
      obtain ⟨a', b', hab', hcab'⟩ := splitLines_cons_other (cs ++ B) hn
      rw [List.cons_append, hcab, hcab']
      rw [hab] at h1
      rw [hab'] at h2
      cases front with
      | nil =>
        simp only [List.nil_append, List.singleton_append, List.cons.injEq] at h1 h2
        refine ⟨[], c :: last, u, v, ?_, ?_, hu, hv⟩
        · rw [h1.1, h1.2]; rfl
        · rw [h2.1, h2.2]; rfl
      | cons f front =>
        simp only [List.cons_append, List.cons.injEq] at h1 h2
        refine ⟨(c :: f) :: front, last, u, v, ?_, ?_, hu, hv⟩
        · rw [h1.1, h1.2]; rfl
        · rw [h2.1, h2.2]; simp

/-- White space after a text does not change which non-empty names are among
its trimmed lines. -/
theorem hasLine_append_space {p : List Char} (hp : p ≠ []) {B : List Char} (hB : AllSpace B)
    (s : List Char) : HasLine p (s ++ B) ↔ HasLine p s := by
  obtain ⟨front, last, u, v, h1, h2, hu, hv⟩ := splitLines_append_space hB s
  unfold HasLine
  rw [h1, h2]
  constructor
  · rintro ⟨l, hl, ht⟩
    simp only [List.mem_append, List.mem_singleton] at hl
    rcases hl with (h | h) | h
    · exact ⟨l, by simp [h], ht⟩
    · rw [h, trimChars_append_space last hu] at ht
      exact ⟨last, by simp, ht⟩
    · rw [trimChars_of_allSpace (hv l h)] at ht
      exact absurd ht.symm hp
  · rintro ⟨l, hl, ht⟩
    simp only [List.mem_append, List.mem_singleton] at hl
    rcases hl with h | h
    · exact ⟨l, by simp [h], ht⟩
    · rw [h] at ht
      exact ⟨last ++ u, by simp, by rw [trimChars_append_space last hu]; exact ht⟩

/-- A text is its trimmed text between white space. -/
theorem trimChars_decompose (s : List Char) :
    ∃ A B, AllSpace A ∧ AllSpace B ∧ s = A ++ (trimChars s ++ B) := by
  refine ⟨s.takeWhile isSpace, ((s.dropWhile isSpace).reverse.takeWhile isSpace).reverse,
    fun c hc => List.mem_takeWhile_imp hc, ?_, ?_⟩
  · intro c hc
    exact List.mem_takeWhile_imp (List.mem_reverse.mp hc)
  · unfold trimChars
    rw [← List.reverse_append, List.takeWhile_append_dropWhile, List.reverse_reverse,
      List.takeWhile_append_dropWhile]

/-- For a non-empty name, the trimmed lines of the trimmed output and the
trimmed lines of the output itself hold the same names. -/
theorem hasLine_trimChars {p : List Char} (hp : p ≠ []) (s : List Char) :
    HasLine p (trimChars s) ↔ HasLine p s := by
  obtain ⟨A, B, hA, hB, hs⟩ := trimChars_decompose s
  conv_rhs => rw [hs]
  rw [hasLine_space_append hp hA, hasLine_append_space hp hB]

theorem any_line_iff (pool : String) (ls : List (List Char)) :
    ls.any (fun line => trimChars line == pool.data) = true ↔
      ∃ l ∈ ls, trimChars l = pool.data := by
  simp [List.any_eq_true]

/-- The functions that only run commands and stat files keep every transitive
relation on worlds that those two kinds of step keep. -/
theorem readiness_rel (env : Env) (ctx : Context) (R : World → World → Prop)
    (htrans : ∀ a b c, R a b → R b c → R a c)
    (hexec : ∀ n a w, R w (runProcess env ctx n a w).2)
    (hstat : ∀ p w, R w (fileExists env p w).2) :
    (∀ pool w, R w (ensurePoolImported env ctx pool w).2) ∧
    (∀ pool keyFile w, R w (ensureKeystoreMounted env ctx pool keyFile w).2) ∧
    (∀ pool w, R w (getKeyStatus env ctx pool w).2) := by
  refine ⟨?_, ?_, ?_⟩
  · intro pool w
    have h1 : R w (runCmdOutput env ctx "zpool" ["list", "-H", "-o", "name"] w).2 := by
      rw [runCmdOutput_world]; exact hexec _ _ w
    have h2 := htrans _ _ _ h1 (hexec "zpool" ["import", "-N", pool]
      (runCmdOutput env ctx "zpool" ["list", "-H", "-o", "name"] w).2)
    unfold ensurePoolImported
    dsimp only
    split
    · exact h1
    · split
      · exact h1
      · split <;> exact h2
  · intro pool keyFile w
    have h2 := htrans _ _ _ (hexec "zfs" ["mount", pool ++ "/keystore"] w)
      (hstat (env.filepathDir keyFile) (runCmd env ctx "zfs" ["mount", pool ++ "/keystore"] w).2)
    unfold ensureKeystoreMounted
    dsimp only
    split <;> exact h2
  · intro pool w
    rw [getKeyStatus_world, runCmdOutput_world]
    exact hexec _ _ w

/-- The identity trial keeps every transitive relation on worlds that its
steps keep. -/
theorem tryIdentity_rel (env : Env) (ctx : Context) (R : World → World → Prop)
    (htrans : ∀ a b c, R a b → R b c → R a c)
    (hexec : ∀ n a w, R w (runProcess env ctx n a w).2)
    (hcreate : ∀ d p w, R w (createTemp env d p w).2)
    (hremove : ∀ p w, R w (removeTemp env p w))
    (hmark : ∀ pool id w, R w (w.record (trialMarker pool id) w.clock))
    (pool : PoolConfig) (identity : String) (w : World) :
    R w (tryIdentity env ctx pool identity w).2 := by
  unfold tryIdentity
  dsimp only
  have hm := hmark pool identity w
  unfold trialMarker at hm
  have hc := htrans _ _ _ hm (hcreate "/run" ("zfs-key-" ++ pool.Name ++ "-") _)
  split
  · exact hc
  · rename_i p _
    have hd := htrans _ _ _ hc (hexec "age"
      ["--decrypt", "-i", identity, pool.EncryptedKeyFile] _)
    split
    · exact htrans _ _ _ hd (hremove p _)
    · have hl := htrans _ _ _ hd (hexec "zfs"
        ["load-key", "-L", "file://" ++ p, pool.Name] _)
      split
      · exact htrans _ _ _ hl (hremove p _)
      · exact htrans _ _ _ hl (hremove p _)

/-- A command run under a context respects its deadline. -/
theorem runProcess_deadlined (env : Env) (ctx : Context) (name : String) (args : List String)
    (w : World) :
    Adds (fun e => e.isExec = true → e.withinDeadline ctx.deadline) w
      (runProcess env ctx name args w).2 := by
  unfold runProcess
  by_cases h1 : ctx.deadline ≤ w.clock
  · simp only [h1, if_true]
    refine ⟨_, rfl, ?_⟩
    intro e he _
    rw [List.mem_singleton] at he
    rw [he]
    exact Or.inr ⟨rfl, by simp, by simp [max_eq_left h1]⟩
  · by_cases h2 : ctx.deadline < w.clock + (env.sys w (.exec name args)).dur
    · simp only [h1, h2, if_true, if_false]
      refine ⟨_, rfl, ?_⟩
      intro e he _
      rw [List.mem_singleton] at he
      rw [he]
      exact Or.inr ⟨rfl, by simp, by simp [max_eq_right (le_of_lt (not_le.mp h1))]⟩
    · simp only [h1, h2, if_false]
      refine ⟨_, rfl, ?_⟩
      intro e he _
      rw [List.mem_singleton] at he
      rw [he]
      exact Or.inl ⟨rfl, by simp only [Event.stamp_ended]; omega⟩

/-- Every command of `unlockPoolOnce` respects the deadline of its context. -/
theorem unlockPoolOnce_deadlined (env : Env) (ctx : Context) (cfg : Config) (pool : PoolConfig)
    (w : World) :
    Adds (fun e => e.isExec = true → e.withinDeadline ctx.deadline) w
      (unlockPoolOnce env ctx cfg pool w).2 := by
  have htrans : ∀ a b c : World,
      Adds (fun e => e.isExec = true → e.withinDeadline ctx.deadline) a b →
      Adds (fun e => e.isExec = true → e.withinDeadline ctx.deadline) b c →
      Adds (fun e => e.isExec = true → e.withinDeadline ctx.deadline) a c :=
    fun _ _ _ h₁ h₂ => h₁.trans h₂
  have hexec := runProcess_deadlined env ctx
  have hstat : ∀ p w, Adds (fun e => e.isExec = true → e.withinDeadline ctx.deadline) w
      (fileExists env p w).2 := by
    intro p w
    obtain ⟨e, he, hc, -⟩ := fileExists_event env p w
    exact ⟨[e], he, by simp [Event.isExec, hc]⟩
  have hcreate : ∀ d p w, Adds (fun e => e.isExec = true → e.withinDeadline ctx.deadline) w
      (createTemp env d p w).2 := by
    intro d p w
    obtain ⟨e, he, hc⟩ := createTemp_event env d p w
    exact ⟨[e], he, by simp [Event.isExec, hc]⟩
  have hremove : ∀ p w, Adds (fun e => e.isExec = true → e.withinDeadline ctx.deadline) w
      (removeTemp env p w) := by
    intro p w
    obtain ⟨e, he, hc⟩ := removeTemp_event env p w
    exact ⟨[e], he, by simp [Event.isExec, hc]⟩
  have hmark : ∀ (pool : PoolConfig) (id : String) (w : World),
      Adds (fun e => e.isExec = true → e.withinDeadline ctx.deadline) w
        (w.record (trialMarker pool id) w.clock) :=
    fun pool id w => Adds.record _ w _ _ (by simp [Event.isExec, trialMarker])
  obtain ⟨himp, hks, hprobe⟩ := readiness_rel env ctx _ htrans hexec hstat
  exact unlockPoolOnce_rel env ctx cfg pool _ htrans (fun w => himp _ w) (fun w => hks _ _ w)
    (fun w => hprobe _ w) (fun w => hstat _ w)
    (fun w => identityLoop_rel env ctx pool _ (Adds.refl _) htrans hstat
      (fun id w => tryIdentity_rel env ctx _ htrans hexec hcreate hremove hmark pool id w)
      (fun w => hprobe _ w) cfg.IdentityFiles w) w

/-- The events of `ensurePoolImported` are the pool list and the import. -/
theorem ensurePoolImported_calls (env : Env) (ctx : Context) (pool : String) (w : World) :
    Adds (fun e => e.call = .exec "zpool" ["list", "-H", "-o", "name"] ∨
        e.call = .exec "zpool" ["import", "-N", pool]) w
      (ensurePoolImported env ctx pool w).2 := by
  obtain ⟨e, he, hc, -⟩ := runCmdOutput_event env ctx "zpool" ["list", "-H", "-o", "name"] w
  have h1 : Adds (fun e => e.call = .exec "zpool" ["list", "-H", "-o", "name"] ∨
      e.call = .exec "zpool" ["import", "-N", pool]) w
      (runCmdOutput env ctx "zpool" ["list", "-H", "-o", "name"] w).2 :=
    ⟨[e], he, by simp [hc]⟩
  obtain ⟨e2, he2, hc2, -⟩ := runCmd_event env ctx "zpool" ["import", "-N", pool]
    (runCmdOutput env ctx "zpool" ["list", "-H", "-o", "name"] w).2
  have h2 := h1.trans ⟨[e2], he2, by simp [hc2]⟩
  unfold ensurePoolImported
  dsimp only
  split
  · exact h1
  · split
    · exact h1
    · split <;> exact h2

/-- The error of `ensureKeystoreMounted` is the missing mountpoint. -/
theorem ensureKeystoreMounted_error (env : Env) (ctx : Context) (pool keyFile : String)
    (w : World) (m : String) (h : (ensureKeystoreMounted env ctx pool keyFile w).1 = some m) :
    m = "keystore mountpoint " ++ env.filepathDir keyFile ++ " does not exist after zfs mount" := by
  unfold ensureKeystoreMounted at h
  dsimp only at h
  split at h
  · simp only [Option.some.injEq] at h
    exact h.symm
  · cases h

/-- What `unlockPoolOnce` returns once the import step has succeeded: `nil`,
the missing mountpoint, the missing key file, or that no identity could unlock
the pool. -/
theorem unlockPoolOnce_after_import (env : Env) (ctx : Context) (cfg : Config)
    (pool : PoolConfig) (w : World) (hi : (ensurePoolImported env ctx pool.Name w).1 = none) :
    (unlockPoolOnce env ctx cfg pool w).1 = none ∨
    (unlockPoolOnce env ctx cfg pool w).1 = some ("keystore mountpoint " ++
      env.filepathDir pool.EncryptedKeyFile ++ " does not exist after zfs mount") ∨
    (unlockPoolOnce env ctx cfg pool w).1 =
      some ("encrypted key file " ++ pool.EncryptedKeyFile ++ " not found") ∨
    (unlockPoolOnce env ctx cfg pool w).1 =
      some ("no identity could unlock pool " ++ pool.Name) := by
  cases hk : (ensureKeystoreMounted env ctx pool.Name pool.EncryptedKeyFile
      (ensurePoolImported env ctx pool.Name w).2).1 with
  | some m =>
    right; left
    rw [ensureKeystoreMounted_error env ctx _ _ _ m hk] at hk
    simp only [unlockPoolOnce, hi, hk]
  | none =>
    by_cases hs : (getKeyStatus env ctx pool.Name
        (ensureKeystoreMounted env ctx pool.Name pool.EncryptedKeyFile
          (ensurePoolImported env ctx pool.Name w).2).2).1.2 = none ∧
        (getKeyStatus env ctx pool.Name
          (ensureKeystoreMounted env ctx pool.Name pool.EncryptedKeyFile
            (ensurePoolImported env ctx pool.Name w).2).2).1.1 = "available"
    · left
      simp only [unlockPoolOnce, hi, hk, hs, and_self, if_true]
    · cases hx : (fileExists env pool.EncryptedKeyFile
          (getKeyStatus env ctx pool.Name
            (ensureKeystoreMounted env ctx pool.Name pool.EncryptedKeyFile
              (ensurePoolImported env ctx pool.Name w).2).2).2).1 with
      | false =>
        right; right; left
        simp only [unlockPoolOnce, hi, hk, hs, hx, if_false, Bool.not_false, if_true]
      | true =>
        simp only [unlockPoolOnce, hi, hk, hs, hx, if_false, Bool.not_true, Bool.false_eq_true]
        rcases identityLoop_result env ctx pool cfg.IdentityFiles
          (fileExists env pool.EncryptedKeyFile
            (getKeyStatus env ctx pool.Name
              (ensureKeystoreMounted env ctx pool.Name pool.EncryptedKeyFile
                (ensurePoolImported env ctx pool.Name w).2).2).2).2 with h | h
        · exact Or.inl h
        · exact Or.inr (Or.inr (Or.inr h))

/-! # The claims -/

/-- C1: when import and the keystore check succeed and the first key-status
probe returns `available` without error, `unlockPoolOnce` returns `nil` and
the run contains no call of `tryIdentity`, no decryption and no load-key. -/
theorem unlockPoolOnce_skips_available (env : Env) (ctx : Context) (cfg : Config)
    (pool : PoolConfig) (w : World)
    (hi : (ensurePoolImported env ctx pool.Name w).1 = none)
    (hk : (ensureKeystoreMounted env ctx pool.Name pool.EncryptedKeyFile
      (ensurePoolImported env ctx pool.Name w).2).1 = none)
    (hs : (getKeyStatus env ctx pool.Name
      (ensureKeystoreMounted env ctx pool.Name pool.EncryptedKeyFile
        (ensurePoolImported env ctx pool.Name w).2).2).1 = ("available", none)) :
    (unlockPoolOnce env ctx cfg pool w).1 = none ∧
      triedIdentities (newEvents w (unlockPoolOnce env ctx cfg pool w).2) = [] ∧
      ∀ e ∈ newEvents w (unlockPoolOnce env ctx cfg pool w).2,
        e.isDecrypt = false ∧ e.isLoadKey = false := by
  have hn : loopEntry env ctx pool w = none := by
    simp [loopEntry, hi, hk, hs]
  refine ⟨?_, (unlockPoolOnce_of_no_loopEntry env ctx cfg pool w hn).noTrial⟩
  simp [unlockPoolOnce, hi, hk, hs]

theorem unlockPoolOnce_skips_available_witness :
    (unlockPoolOnce envAllGood ⟨100⟩ tankConfig tank emptyWorld).1 = none ∧
      triedIdentities (newEvents emptyWorld
        (unlockPoolOnce envAllGood ⟨100⟩ tankConfig tank emptyWorld).2) = [] ∧
      ∀ e ∈ newEvents emptyWorld (unlockPoolOnce envAllGood ⟨100⟩ tankConfig tank emptyWorld).2,
        e.isDecrypt = false ∧ e.isLoadKey = false :=
  unlockPoolOnce_skips_available envAllGood ⟨100⟩ tankConfig tank emptyWorld
    (by decide) (by decide) (by decide)

/-- C2: the identities `unlockPoolOnce` passes to `tryIdentity`.  When a
return before the loop is taken, none.  Otherwise the events of the run are
readiness events followed by the events `L` of the loop, and `L` satisfies
`TrialOrder`: the loop visits a front part of the configured list in order,
stats exactly its non-blank entries and tries exactly those the stat found;
every trial whose load-key returned no error is followed, after the removal
of the temporary key file, by a probe of the key status, and the loop probes
only then; it stops at the first confirming probe, which is the last event
and whose identity is the last one tried, and otherwise (also after a
successful trial whose probe did not confirm) goes on to visit the whole list
and reports that no identity could unlock the pool. -/
theorem unlockPoolOnce_trial_order (env : Env) (ctx : Context) (cfg : Config)
    (pool : PoolConfig) (w : World) :
    (loopEntry env ctx pool w = none →
      triedIdentities (newEvents w (unlockPoolOnce env ctx cfg pool w).2) = []) ∧
    (∀ x, loopEntry env ctx pool w = some x →
      ∃ L, newEvents w (unlockPoolOnce env ctx cfg pool w).2 = newEvents w x ++ L ∧
        triedIdentities (newEvents w (unlockPoolOnce env ctx cfg pool w).2) =
          triedIdentities L ∧
        TrialOrder pool cfg.IdentityFiles L (unlockPoolOnce env ctx cfg pool w).1) := by
  constructor
  · intro hn
    exact (unlockPoolOnce_of_no_loopEntry env ctx cfg pool w hn).noTrial.1
  · intro x hx
    obtain ⟨heq, hadd⟩ := unlockPoolOnce_of_loopEntry env ctx cfg pool w x hx
    obtain ⟨L, hL, hO⟩ := identityLoop_order env ctx pool cfg.IdentityFiles x
    rw [heq]
    have hnew : newEvents w (identityLoop env ctx pool cfg.IdentityFiles x).2 =
        newEvents w x ++ L := by
      apply newEvents_eq
      rw [hL, hadd.trace_eq, List.append_assoc]
    refine ⟨L, hnew, ?_, hO⟩
    rw [hnew, triedIdentities_append, hadd.noTrial.1]
    rfl

theorem unlockPoolOnce_trial_order_witness :
    loopEntry envThirdIdentity ⟨100⟩ tank emptyWorld =
        some (fileExists envThirdIdentity tank.EncryptedKeyFile
          (getKeyStatus envThirdIdentity ⟨100⟩ tank.Name
            (ensureKeystoreMounted envThirdIdentity ⟨100⟩ tank.Name tank.EncryptedKeyFile
              (ensurePoolImported envThirdIdentity ⟨100⟩ tank.Name emptyWorld).2).2).2).2 ∧
      statPaths (newEvents emptyWorld
        (unlockPoolOnce envThirdIdentity ⟨100⟩ sixIdsConfig tank emptyWorld).2) =
        ["/keystore", "/keystore/tank.age", "/missing", "/id1", "/id2", "/id3"] ∧
      triedIdentities (newEvents emptyWorld
        (unlockPoolOnce envThirdIdentity ⟨100⟩ sixIdsConfig tank emptyWorld).2) =
        ["/id1", "/id2", "/id3"] ∧
      (unlockPoolOnce envThirdIdentity ⟨100⟩ sixIdsConfig tank emptyWorld).1 = none ∧
      ∃ L, newEvents emptyWorld
            (unlockPoolOnce envThirdIdentity ⟨100⟩ sixIdsConfig tank emptyWorld).2 =
          newEvents emptyWorld (fileExists envThirdIdentity tank.EncryptedKeyFile
            (getKeyStatus envThirdIdentity ⟨100⟩ tank.Name
              (ensureKeystoreMounted envThirdIdentity ⟨100⟩ tank.Name tank.EncryptedKeyFile
                (ensurePoolImported envThirdIdentity ⟨100⟩ tank.Name emptyWorld).2).2).2).2
            ++ L ∧
        triedIdentities (newEvents emptyWorld
            (unlockPoolOnce envThirdIdentity ⟨100⟩ sixIdsConfig tank emptyWorld).2) =
          triedIdentities L ∧
        TrialOrder tank sixIdsConfig.IdentityFiles L
          (unlockPoolOnce envThirdIdentity ⟨100⟩ sixIdsConfig tank emptyWorld).1 :=
  ⟨by decide, by decide, by decide, by decide,
    (unlockPoolOnce_trial_order envThirdIdentity ⟨100⟩ sixIdsConfig tank emptyWorld).2 _
      (by decide)⟩

/-- C3: when `unlockPoolOnce` returns `nil`, the last event of the run is a
key-status probe of the pool that returned `available` without error and was
not cancelled; being last, no load-key (or any other call) follows it. -/
theorem unlockPoolOnce_success_confirmed (env : Env) (ctx : Context) (cfg : Config)
    (pool : PoolConfig) (w : World) (h : (unlockPoolOnce env ctx cfg pool w).1 = none) :
    ∃ evs e, newEvents w (unlockPoolOnce env ctx cfg pool w).2 = evs ++ [e] ∧
      e.confirms pool.Name ∧ e.isLoadKey = false := by
  have hlast : ∃ evs e, newEvents w (unlockPoolOnce env ctx cfg pool w).2 = evs ++ [e] ∧
      e.confirms pool.Name := by
    cases hn : loopEntry env ctx pool w with
    | none => exact unlockPoolOnce_early_success env ctx cfg pool w hn h
    | some x =>
      obtain ⟨heq, hadd⟩ := unlockPoolOnce_of_loopEntry env ctx cfg pool w x hn
      obtain ⟨L, hL, pre, suf, -, -, -, -, -, hend⟩ :=
        identityLoop_order env ctx pool cfg.IdentityFiles x
      rw [heq] at h ⊢
      rcases hend with ⟨L0, e, -, -, -, hL0, he, -, -, -, -⟩ | ⟨-, -, hres⟩
      · refine ⟨newEvents w x ++ L0, e, ?_, he⟩
        apply newEvents_eq
        rw [hL, hadd.trace_eq, hL0]
        simp
      · rw [hres] at h
        cases h
  obtain ⟨evs, e, h1, h2⟩ := hlast
  refine ⟨evs, e, h1, h2, ?_⟩
  simp [Event.isLoadKey, h2.1]

theorem unlockPoolOnce_success_confirmed_witness :
    ∃ evs e, newEvents emptyWorld
        (unlockPoolOnce envProbeFailsFirst ⟨100⟩ tankConfig tank emptyWorld).2 = evs ++ [e] ∧
      e.confirms tank.Name ∧ e.isLoadKey = false :=
  unlockPoolOnce_success_confirmed envProbeFailsFirst ⟨100⟩ tankConfig tank emptyWorld
    (by decide)

/-- C4: when import and the keystore check succeed, the pool is not reported
available and the encrypted key file does not exist, `unlockPoolOnce` returns
the key-file-not-found error and the run contains no call of `tryIdentity`, no
decryption and no load-key, whatever the identity list. -/
theorem unlockPoolOnce_key_file_missing (env : Env) (ctx : Context) (cfg : Config)
    (pool : PoolConfig) (w : World)
    (hi : (ensurePoolImported env ctx pool.Name w).1 = none)
    (hk : (ensureKeystoreMounted env ctx pool.Name pool.EncryptedKeyFile
      (ensurePoolImported env ctx pool.Name w).2).1 = none)
    (hs : ¬ ((getKeyStatus env ctx pool.Name
        (ensureKeystoreMounted env ctx pool.Name pool.EncryptedKeyFile
          (ensurePoolImported env ctx pool.Name w).2).2).1.2 = none ∧
      (getKeyStatus env ctx pool.Name
        (ensureKeystoreMounted env ctx pool.Name pool.EncryptedKeyFile
          (ensurePoolImported env ctx pool.Name w).2).2).1.1 = "available"))
    (hx : (fileExists env pool.EncryptedKeyFile
      (getKeyStatus env ctx pool.Name
        (ensureKeystoreMounted env ctx pool.Name pool.EncryptedKeyFile
          (ensurePoolImported env ctx pool.Name w).2).2).2).1 = false) :
    (unlockPoolOnce env ctx cfg pool w).1 =
        some ("encrypted key file " ++ pool.EncryptedKeyFile ++ " not found") ∧
      triedIdentities (newEvents w (unlockPoolOnce env ctx cfg pool w).2) = [] ∧
      ∀ e ∈ newEvents w (unlockPoolOnce env ctx cfg pool w).2,
        e.isDecrypt = false ∧ e.isLoadKey = false := by
  have hn : loopEntry env ctx pool w = none := by
    simp only [loopEntry, hi, hk, hs, hx, if_false, Bool.not_false, if_true]
  refine ⟨?_, (unlockPoolOnce_of_no_loopEntry env ctx cfg pool w hn).noTrial⟩
  simp only [unlockPoolOnce, hi, hk, hs, hx, if_false, Bool.not_false, if_true]

theorem unlockPoolOnce_key_file_missing_witness :
    (unlockPoolOnce envKeyMissing ⟨100⟩ tankConfig tank emptyWorld).1 =
        some "encrypted key file /keystore/tank.age not found" ∧
      triedIdentities (newEvents emptyWorld
        (unlockPoolOnce envKeyMissing ⟨100⟩ tankConfig tank emptyWorld).2) = [] ∧
      ∀ e ∈ newEvents emptyWorld
          (unlockPoolOnce envKeyMissing ⟨100⟩ tankConfig tank emptyWorld).2,
        e.isDecrypt = false ∧ e.isLoadKey = false :=
  unlockPoolOnce_key_file_missing envKeyMissing ⟨100⟩ tankConfig tank emptyWorld
    (by decide) (by decide) (by decide) (by decide)

/-- C5: for a configuration with at least one pool and one identity file,
`main` calls `unlockPoolWithTimeout` exactly for the pools that have both a
name and a key-file path, once each and in configured order, whatever the
earlier orchestrations returned; and its exit code is non-zero exactly when
one of those orchestrations returned an error. -/
theorem main_orchestrates_pools (env : Env) (cfg : Config) (timeout : Int) (w : World)
    (hp : cfg.Pools ≠ []) (hi : cfg.IdentityFiles ≠ []) :
    orchestratedPools (newEvents w (main env (some cfg) timeout w).2) =
        cfg.Pools.filter PoolConfig.complete ∧
      ((main env (some cfg) timeout w).1 ≠ 0 ↔ AnyPoolFailed env cfg timeout w) := by
  rw [main_eq_fleetDriver env cfg timeout w hp hi, anyPoolFailed_iff]
  obtain ⟨⟨evs, he, ho, -⟩, -⟩ := poolLoop_spec env cfg timeout cfg.Pools false w
  obtain ⟨h1, h0⟩ := fleetDriver_events env cfg timeout w
  cases hb : (poolLoop env cfg timeout cfg.Pools false w).1 with
  | true =>
    rw [h1 hb]
    refine ⟨?_, by simp⟩
    rw [newEvents_eq he, ho]
  | false =>
    obtain ⟨hz, e, hte, hc⟩ := h0 hb
    refine ⟨?_, by simp [hz]⟩
    have : newEvents w (fleetDriver env cfg timeout w).2 = evs ++ [e] := by
      apply newEvents_eq
      rw [hte, he, List.append_assoc]
    rw [this, orchestratedPools_append, ho]
    simp [orchestratedPools, hc]

theorem main_orchestrates_pools_witness :
    orchestratedPools (newEvents emptyWorld
        (main envTankKeyMissing (some fleetConfig) sixtySeconds emptyWorld).2) = [tank, backup] ∧
      (main envTankKeyMissing (some fleetConfig) sixtySeconds emptyWorld).1 = 1 ∧
      (orchestratedPools (newEvents emptyWorld
          (main envTankKeyMissing (some fleetConfig) sixtySeconds emptyWorld).2) =
          fleetConfig.Pools.filter PoolConfig.complete ∧
        ((main envTankKeyMissing (some fleetConfig) sixtySeconds emptyWorld).1 ≠ 0 ↔
          AnyPoolFailed envTankKeyMissing fleetConfig sixtySeconds emptyWorld)) :=
  ⟨by decide, by decide,
    main_orchestrates_pools envTankKeyMissing fleetConfig sixtySeconds emptyWorld
      (by decide) (by decide)⟩

/-- C6: the final `zfs mount -a` of the fleet driver.  When no orchestration
returned an error the exit code is 0 and the events of the run are those of
the loop over all the pools followed by one last event, the mount pass,
whatever its result.  When an orchestration returned an error the exit code
is 1 and the run ends with the loop.  The loop itself never runs the mount
pass. -/
theorem fleetDriver_mount_pass (env : Env) (cfg : Config) (timeout : Int) (w : World) :
    (¬ AnyPoolFailed env cfg timeout w →
      (fleetDriver env cfg timeout w).1 = 0 ∧
      ∃ e, newEvents w (fleetDriver env cfg timeout w).2 =
          newEvents w (poolLoop env cfg timeout cfg.Pools false w).2 ++ [e] ∧
        e.isMountAll = true) ∧
    (AnyPoolFailed env cfg timeout w →
      (fleetDriver env cfg timeout w).1 = 1 ∧
      newEvents w (fleetDriver env cfg timeout w).2 =
        newEvents w (poolLoop env cfg timeout cfg.Pools false w).2) ∧
    (∀ e ∈ newEvents w (poolLoop env cfg timeout cfg.Pools false w).2, e.isMountAll = false) := by
  rw [anyPoolFailed_iff]
  obtain ⟨⟨evs, he, -, hm⟩, -⟩ := poolLoop_spec env cfg timeout cfg.Pools false w
  obtain ⟨h1, h0⟩ := fleetDriver_events env cfg timeout w
  refine ⟨?_, ?_, ?_⟩
  · intro hb
    obtain ⟨hz, e, hte, hc⟩ := h0 (by simpa using hb)
    refine ⟨hz, e, ?_, by simp [Event.isMountAll, hc]⟩
    apply newEvents_eq
    rw [hte, he, newEvents_eq he, List.append_assoc]
  · intro hb
    rw [h1 hb]
    exact ⟨rfl, rfl⟩
  · rw [newEvents_eq he]
    exact hm

theorem fleetDriver_mount_pass_witness :
    ((fleetDriver envMountAllFails fleetConfig sixtySeconds emptyWorld).1 = 0 ∧
      ∃ e, newEvents emptyWorld
            (fleetDriver envMountAllFails fleetConfig sixtySeconds emptyWorld).2 =
          newEvents emptyWorld
            (poolLoop envMountAllFails fleetConfig sixtySeconds fleetConfig.Pools false
              emptyWorld).2 ++ [e] ∧
        e.isMountAll = true) ∧
    ((newEvents emptyWorld
        (fleetDriver envMountAllFails fleetConfig sixtySeconds emptyWorld).2).getLast?.map
          Event.err = some (some "exit status 1")) ∧
    ((fleetDriver envTankKeyMissing fleetConfig sixtySeconds emptyWorld).1 = 1 ∧
      newEvents emptyWorld (fleetDriver envTankKeyMissing fleetConfig sixtySeconds emptyWorld).2 =
        newEvents emptyWorld
          (poolLoop envTankKeyMissing fleetConfig sixtySeconds fleetConfig.Pools false
            emptyWorld).2) :=
  ⟨(fleetDriver_mount_pass envMountAllFails fleetConfig sixtySeconds emptyWorld).1
      (fun h => absurd ((anyPoolFailed_iff _ _ _ _).mp h) (by decide)),
   by decide,
   (fleetDriver_mount_pass envTankKeyMissing fleetConfig sixtySeconds emptyWorld).2.1
      ⟨[], tank, [⟨"", "/keystore/x.age"⟩, backup], rfl, rfl, by decide⟩⟩

/-- C8, as stated, fails: with a sixty-second timeout and a decryption tool
that needs sixty-one seconds the decryption is cancelled at the deadline, and
`unlockPoolWithTimeout` returns the very error it returns when nothing was
cancelled and every identity simply failed to decrypt. -/
theorem timeout_reported_as_exhausted :
    (∃ e ∈ newEvents emptyWorld
        (unlockPoolWithTimeout envSlowDecrypt tankConfig tank sixtySeconds emptyWorld).2,
      e.isDecrypt = true ∧ e.cancelled = true) ∧
    (unlockPoolWithTimeout envSlowDecrypt tankConfig tank sixtySeconds emptyWorld).1 =
      some "no identity could unlock pool tank" ∧
    (∀ e ∈ newEvents emptyWorld
        (unlockPoolWithTimeout envWrongIdentities tankConfig tank sixtySeconds emptyWorld).2,
      e.cancelled = false) ∧
    (unlockPoolWithTimeout envWrongIdentities tankConfig tank sixtySeconds emptyWorld).1 =
      some "no identity could unlock pool tank" := by
  decide

/-- C8, amended.  Every external command of the run respects the per-pool
deadline: it has returned by the deadline, or it is cancelled, returns an
error and does not run beyond the deadline.  When a command was cancelled, or
the run lasted beyond the deadline, `unlockPoolWithTimeout` returns an error.
That error is not a timeout error of its own.  A failed pool list or import,
cancelled or not, gives the pool-list or import error around the error of the
command.  A cancelled command other than those two gives the missing
mountpoint, the missing key file, or that no identity could unlock the pool;
a cancelled decryption or load-key always gives the last, the error returned
when all identities are exhausted. -/
theorem unlockPoolWithTimeout_deadline (env : Env) (cfg : Config) (pool : PoolConfig)
    (timeout : Int) (w : World) :
    (∀ e ∈ newEvents w (unlockPoolWithTimeout env cfg pool timeout w).2,
      e.isExec = true → e.withinDeadline (w.clock + timeout)) ∧
    (∀ e ∈ newEvents w (unlockPoolWithTimeout env cfg pool timeout w).2,
      e.cancelled = true → (unlockPoolWithTimeout env cfg pool timeout w).1 ≠ none) ∧
    (w.clock + timeout < (unlockPoolWithTimeout env cfg pool timeout w).2.clock →
      (unlockPoolWithTimeout env cfg pool timeout w).1 ≠ none) ∧
    (∀ e ∈ newEvents w (unlockPoolWithTimeout env cfg pool timeout w).2,
      e.cancelled = true → (e.isDecrypt = true ∨ e.isLoadKey = true) →
      (unlockPoolWithTimeout env cfg pool timeout w).1 =
        some ("no identity could unlock pool " ++ pool.Name)) ∧
    (∀ e ∈ newEvents w (unlockPoolWithTimeout env cfg pool timeout w).2,
      e.cancelled = true →
      e.call ≠ .exec "zpool" ["list", "-H", "-o", "name"] →
      e.call ≠ .exec "zpool" ["import", "-N", pool.Name] →
      (unlockPoolWithTimeout env cfg pool timeout w).1 = some ("keystore mountpoint " ++
          env.filepathDir pool.EncryptedKeyFile ++ " does not exist after zfs mount") ∨
        (unlockPoolWithTimeout env cfg pool timeout w).1 =
          some ("encrypted key file " ++ pool.EncryptedKeyFile ++ " not found") ∨
        (unlockPoolWithTimeout env cfg pool timeout w).1 =
          some ("no identity could unlock pool " ++ pool.Name)) ∧
    (∀ m, (runCmdOutput env ⟨w.clock + timeout⟩ "zpool" ["list", "-H", "-o", "name"]
        (w.record (poolMarker pool) w.clock)).1.2 = some m →
      (unlockPoolWithTimeout env cfg pool timeout w).1 = some ("zpool list failed: " ++ m)) ∧
    (∀ out m, (runCmdOutput env ⟨w.clock + timeout⟩ "zpool" ["list", "-H", "-o", "name"]
        (w.record (poolMarker pool) w.clock)).1 = (out, none) →
      ¬ PoolListed pool.Name out →
      (runCmd env ⟨w.clock + timeout⟩ "zpool" ["import", "-N", pool.Name]
        (runCmdOutput env ⟨w.clock + timeout⟩ "zpool" ["list", "-H", "-o", "name"]
          (w.record (poolMarker pool) w.clock)).2).1 = some m →
      (unlockPoolWithTimeout env cfg pool timeout w).1 =
        some ("zpool import -N " ++ pool.Name ++ " failed: " ++ m)) := by
  have hnew := unlockPoolWithTimeout_newEvents env cfg pool timeout w
  have hres : (unlockPoolWithTimeout env cfg pool timeout w).1 =
      (unlockPoolOnce env ⟨w.clock + timeout⟩ cfg pool
        (w.record (poolMarker pool) w.clock)).1 := rfl
  have hfail : ∀ e ∈ newEvents w (unlockPoolWithTimeout env cfg pool timeout w).2,
      e.cancelled = true → (unlockPoolWithTimeout env cfg pool timeout w).1 ≠ none := by
    intro e he hcan hnone
    rw [hnew] at he
    rcases List.mem_cons.mp he with h | h
    · rw [h] at hcan
      cases hcan
    · have := unlockPoolOnce_success_clean env ⟨w.clock + timeout⟩ cfg pool
        (w.record (poolMarker pool) w.clock) hnone e h
      rw [this] at hcan
      cases hcan
  refine ⟨?_, hfail, ?_, ?_, ?_, ?_, ?_⟩
  · intro e he hexec
    rw [hnew] at he
    rcases List.mem_cons.mp he with h | h
    · rw [h] at hexec
      cases hexec
    · exact (unlockPoolOnce_deadlined env ⟨w.clock + timeout⟩ cfg pool
        (w.record (poolMarker pool) w.clock)).forall_newEvents e h hexec
  · intro hlate hnone
    have := unlockPoolOnce_success_clock env ⟨w.clock + timeout⟩ cfg pool
      (w.record (poolMarker pool) w.clock) hnone
    have hlate' : w.clock + timeout < (unlockPoolOnce env ⟨w.clock + timeout⟩ cfg pool
      (w.record (poolMarker pool) w.clock)).2.clock := hlate
    simp only at this
    omega
  · intro e he hcan hkind
    have hne := hfail e he hcan
    rw [hnew] at he
    rcases List.mem_cons.mp he with h | h
    · rw [h] at hcan
      cases hcan
    · cases hn : loopEntry env ⟨w.clock + timeout⟩ pool (w.record (poolMarker pool) w.clock) with
      | none =>
        have hr := (unlockPoolOnce_of_no_loopEntry env ⟨w.clock + timeout⟩ cfg pool _
          hn).noTrial.2 e h
        rcases hkind with hk | hk
        · rw [hr.1] at hk; cases hk
        · rw [hr.2] at hk; cases hk
      | some x =>
        obtain ⟨heq, -⟩ := unlockPoolOnce_of_loopEntry env ⟨w.clock + timeout⟩ cfg pool _ x hn
        rw [hres, heq] at hne ⊢
        rcases identityLoop_result env ⟨w.clock + timeout⟩ pool cfg.IdentityFiles x with h1 | h1
        · exact absurd h1 hne
        · exact h1
  · intro e he hcan hlist himp
    have hne := hfail e he hcan
    rw [hnew] at he
    rcases List.mem_cons.mp he with h | h
    · rw [h] at hcan
      cases hcan
    · cases hi : (ensurePoolImported env ⟨w.clock + timeout⟩ pool.Name
          (w.record (poolMarker pool) w.clock)).1 with
      | some m =>
        have hw : (unlockPoolOnce env ⟨w.clock + timeout⟩ cfg pool
            (w.record (poolMarker pool) w.clock)).2 =
            (ensurePoolImported env ⟨w.clock + timeout⟩ pool.Name
              (w.record (poolMarker pool) w.clock)).2 := by
          simp only [unlockPoolOnce, hi]
        rw [hw] at h
        rcases (ensurePoolImported_calls env ⟨w.clock + timeout⟩ pool.Name
          (w.record (poolMarker pool) w.clock)).forall_newEvents e h with hc | hc
        · exact absurd hc hlist
        · exact absurd hc himp
      | none =>
        rw [hres] at hne ⊢
        rcases unlockPoolOnce_after_import env ⟨w.clock + timeout⟩ cfg pool
          (w.record (poolMarker pool) w.clock) hi with h1 | h1
        · exact absurd h1 hne
        · exact h1
  · intro m hm
    rw [hres]
    simp only [unlockPoolOnce, ensurePoolImported, hm]
  · intro out m hout hl him
    have h1 : (runCmdOutput env ⟨w.clock + timeout⟩ "zpool" ["list", "-H", "-o", "name"]
        (w.record (poolMarker pool) w.clock)).1.2 = none := by rw [hout]
    have h2 : (runCmdOutput env ⟨w.clock + timeout⟩ "zpool" ["list", "-H", "-o", "name"]
        (w.record (poolMarker pool) w.clock)).1.1 = out := by rw [hout]
    have hany : (splitLines (trimChars out.data)).any
        (fun line => trimChars line == pool.Name.data) = false := by
      rw [Bool.eq_false_iff]
      exact fun h => hl ((any_line_iff pool.Name _).mp h)
    rw [hres]
    simp only [unlockPoolOnce, ensurePoolImported, h1, h2, hany, Bool.false_eq_true, if_false,
      him]

theorem unlockPoolWithTimeout_deadline_witness :
    (⟨.exec "age" ["--decrypt", "-i", "/id1", "/keystore/tank.age"], some "signal: killed", "",
        true, 7, 60000000000⟩ : Event).withinDeadline (emptyWorld.clock + sixtySeconds) ∧
    (unlockPoolWithTimeout envSlowDecrypt tankConfig tank sixtySeconds emptyWorld).1 ≠ none ∧
    (unlockPoolWithTimeout envSlowDecrypt tankConfig tank sixtySeconds emptyWorld).1 =
      some ("no identity could unlock pool " ++ tank.Name) ∧
    (unlockPoolWithTimeout envAllGood tankConfig tank 0 emptyWorld).1 =
      some ("zpool list failed: " ++ "context deadline exceeded") :=
  ⟨(unlockPoolWithTimeout_deadline envSlowDecrypt tankConfig tank sixtySeconds emptyWorld).1
      ⟨.exec "age" ["--decrypt", "-i", "/id1", "/keystore/tank.age"], some "signal: killed", "",
        true, 7, 60000000000⟩ (by decide) rfl,
   (unlockPoolWithTimeout_deadline envSlowDecrypt tankConfig tank sixtySeconds emptyWorld).2.1
      ⟨.exec "age" ["--decrypt", "-i", "/id1", "/keystore/tank.age"], some "signal: killed", "",
        true, 7, 60000000000⟩ (by decide) rfl,
   (unlockPoolWithTimeout_deadline envSlowDecrypt tankConfig tank sixtySeconds
      emptyWorld).2.2.2.1
      ⟨.exec "age" ["--decrypt", "-i", "/id1", "/keystore/tank.age"], some "signal: killed", "",
        true, 7, 60000000000⟩ (by decide) rfl (Or.inl rfl),
   (unlockPoolWithTimeout_deadline envAllGood tankConfig tank 0 emptyWorld).2.2.2.2.2.1
      "context deadline exceeded" (by decide)⟩

/-- C9, as stated, fails for a key-status probe error: here import and the
keystore check succeed and the first probe returns an error, yet the run goes
on to try identity `/id1` and returns `nil`. -/
theorem probe_error_does_not_abort :
    (ensurePoolImported envProbeFailsFirst ⟨100⟩ tank.Name emptyWorld).1 = none ∧
    (ensureKeystoreMounted envProbeFailsFirst ⟨100⟩ tank.Name tank.EncryptedKeyFile
      (ensurePoolImported envProbeFailsFirst ⟨100⟩ tank.Name emptyWorld).2).1 = none ∧
    (getKeyStatus envProbeFailsFirst ⟨100⟩ tank.Name
      (ensureKeystoreMounted envProbeFailsFirst ⟨100⟩ tank.Name tank.EncryptedKeyFile
        (ensurePoolImported envProbeFailsFirst ⟨100⟩ tank.Name emptyWorld).2).2).1 =
      ("unavailable", some "exit status 1") ∧
    (unlockPoolOnce envProbeFailsFirst ⟨100⟩ tankConfig tank emptyWorld).1 = none ∧
    triedIdentities (newEvents emptyWorld
      (unlockPoolOnce envProbeFailsFirst ⟨100⟩ tankConfig tank emptyWorld).2) = ["/id1"] ∧
    ((newEvents emptyWorld
      (unlockPoolOnce envProbeFailsFirst ⟨100⟩ tankConfig tank emptyWorld).2).filter
        Event.isDecrypt).length = 1 := by
  decide

/-- C9, amended: an import error, a keystore mountpoint missing after the
mount attempt, or a missing key file ends `unlockPoolOnce` with that error in
the world the failing step left, with no call of `tryIdentity`, no decryption
and no load-key.  A key-status probe error does not end it: when the key file
exists the run continues with the identity loop. -/
theorem unlockPoolOnce_abort_steps (env : Env) (ctx : Context) (cfg : Config)
    (pool : PoolConfig) (w : World) :
    (∀ e, (ensurePoolImported env ctx pool.Name w).1 = some e →
      unlockPoolOnce env ctx cfg pool w = (some e, (ensurePoolImported env ctx pool.Name w).2) ∧
      NoTrial w (unlockPoolOnce env ctx cfg pool w).2) ∧
    ((ensurePoolImported env ctx pool.Name w).1 = none →
      ∀ e, (ensureKeystoreMounted env ctx pool.Name pool.EncryptedKeyFile
          (ensurePoolImported env ctx pool.Name w).2).1 = some e →
        unlockPoolOnce env ctx cfg pool w =
          (some e, (ensureKeystoreMounted env ctx pool.Name pool.EncryptedKeyFile
            (ensurePoolImported env ctx pool.Name w).2).2) ∧
        NoTrial w (unlockPoolOnce env ctx cfg pool w).2) ∧
    ((ensurePoolImported env ctx pool.Name w).1 = none →
      (ensureKeystoreMounted env ctx pool.Name pool.EncryptedKeyFile
        (ensurePoolImported env ctx pool.Name w).2).1 = none →
      ¬ ((getKeyStatus env ctx pool.Name
          (ensureKeystoreMounted env ctx pool.Name pool.EncryptedKeyFile
            (ensurePoolImported env ctx pool.Name w).2).2).1.2 = none ∧
        (getKeyStatus env ctx pool.Name
          (ensureKeystoreMounted env ctx pool.Name pool.EncryptedKeyFile
            (ensurePoolImported env ctx pool.Name w).2).2).1.1 = "available") →
      (fileExists env pool.EncryptedKeyFile
        (getKeyStatus env ctx pool.Name
          (ensureKeystoreMounted env ctx pool.Name pool.EncryptedKeyFile
            (ensurePoolImported env ctx pool.Name w).2).2).2).1 = false →
      unlockPoolOnce env ctx cfg pool w =
        (some ("encrypted key file " ++ pool.EncryptedKeyFile ++ " not found"),
          (fileExists env pool.EncryptedKeyFile
            (getKeyStatus env ctx pool.Name
              (ensureKeystoreMounted env ctx pool.Name pool.EncryptedKeyFile
                (ensurePoolImported env ctx pool.Name w).2).2).2).2) ∧
      NoTrial w (unlockPoolOnce env ctx cfg pool w).2) ∧
    ((ensurePoolImported env ctx pool.Name w).1 = none →
      (ensureKeystoreMounted env ctx pool.Name pool.EncryptedKeyFile
        (ensurePoolImported env ctx pool.Name w).2).1 = none →
      ∀ e, (getKeyStatus env ctx pool.Name
          (ensureKeystoreMounted env ctx pool.Name pool.EncryptedKeyFile
            (ensurePoolImported env ctx pool.Name w).2).2).1.2 = some e →
      (fileExists env pool.EncryptedKeyFile
        (getKeyStatus env ctx pool.Name
          (ensureKeystoreMounted env ctx pool.Name pool.EncryptedKeyFile
            (ensurePoolImported env ctx pool.Name w).2).2).2).1 = true →
      unlockPoolOnce env ctx cfg pool w =
        identityLoop env ctx pool cfg.IdentityFiles
          (fileExists env pool.EncryptedKeyFile
            (getKeyStatus env ctx pool.Name
              (ensureKeystoreMounted env ctx pool.Name pool.EncryptedKeyFile
                (ensurePoolImported env ctx pool.Name w).2).2).2).2) := by
  refine ⟨?_, ?_, ?_, ?_⟩
  · intro e hi
    have hn : loopEntry env ctx pool w = none := by simp [loopEntry, hi]
    refine ⟨?_, (unlockPoolOnce_of_no_loopEntry env ctx cfg pool w hn).noTrial⟩
    simp only [unlockPoolOnce, hi]
  · intro hi e hk
    have hn : loopEntry env ctx pool w = none := by simp [loopEntry, hi, hk]
    refine ⟨?_, (unlockPoolOnce_of_no_loopEntry env ctx cfg pool w hn).noTrial⟩
    simp only [unlockPoolOnce, hi, hk]
  · intro hi hk hs hx
    have hn : loopEntry env ctx pool w = none := by
      simp only [loopEntry, hi, hk, hs, hx, if_false, Bool.not_false, if_true]
    refine ⟨?_, (unlockPoolOnce_of_no_loopEntry env ctx cfg pool w hn).noTrial⟩
    simp only [unlockPoolOnce, hi, hk, hs, hx, if_false, Bool.not_false, if_true]
  · intro hi hk e hs hx
    simp only [unlockPoolOnce, hi, hk, hs, hx, false_and, if_false, Bool.not_true,
      Bool.false_eq_true, reduceCtorEq]

theorem unlockPoolOnce_abort_steps_witness :
    (unlockPoolOnce envListFails ⟨100⟩ tankConfig tank emptyWorld =
        (some "zpool list failed: exit status 1",
          (ensurePoolImported envListFails ⟨100⟩ tank.Name emptyWorld).2) ∧
      NoTrial emptyWorld (unlockPoolOnce envListFails ⟨100⟩ tankConfig tank emptyWorld).2) ∧
    (unlockPoolOnce envNoKeystore ⟨100⟩ tankConfig tank emptyWorld =
        (some "keystore mountpoint /keystore does not exist after zfs mount",
          (ensureKeystoreMounted envNoKeystore ⟨100⟩ tank.Name tank.EncryptedKeyFile
            (ensurePoolImported envNoKeystore ⟨100⟩ tank.Name emptyWorld).2).2) ∧
      NoTrial emptyWorld (unlockPoolOnce envNoKeystore ⟨100⟩ tankConfig tank emptyWorld).2) ∧
    (unlockPoolOnce envKeyMissing ⟨100⟩ tankConfig tank emptyWorld =
        (some ("encrypted key file " ++ tank.EncryptedKeyFile ++ " not found"),
          (fileExists envKeyMissing tank.EncryptedKeyFile
            (getKeyStatus envKeyMissing ⟨100⟩ tank.Name
              (ensureKeystoreMounted envKeyMissing ⟨100⟩ tank.Name tank.EncryptedKeyFile
                (ensurePoolImported envKeyMissing ⟨100⟩ tank.Name emptyWorld).2).2).2).2) ∧
      NoTrial emptyWorld (unlockPoolOnce envKeyMissing ⟨100⟩ tankConfig tank emptyWorld).2) ∧
    unlockPoolOnce envProbeFailsFirst ⟨100⟩ tankConfig tank emptyWorld =
      identityLoop envProbeFailsFirst ⟨100⟩ tank tankConfig.IdentityFiles
        (fileExists envProbeFailsFirst tank.EncryptedKeyFile
          (getKeyStatus envProbeFailsFirst ⟨100⟩ tank.Name
            (ensureKeystoreMounted envProbeFailsFirst ⟨100⟩ tank.Name tank.EncryptedKeyFile
              (ensurePoolImported envProbeFailsFirst ⟨100⟩ tank.Name emptyWorld).2).2).2).2 :=
  ⟨(unlockPoolOnce_abort_steps envListFails ⟨100⟩ tankConfig tank emptyWorld).1 _ (by decide),
   (unlockPoolOnce_abort_steps envNoKeystore ⟨100⟩ tankConfig tank emptyWorld).2.1
      (by decide) _ (by decide),
   (unlockPoolOnce_abort_steps envKeyMissing ⟨100⟩ tankConfig tank emptyWorld).2.2.1
      (by decide) (by decide) (by decide) (by decide),
   (unlockPoolOnce_abort_steps envProbeFailsFirst ⟨100⟩ tankConfig tank emptyWorld).2.2.2
      (by decide) (by decide) "exit status 1" (by decide) (by decide)⟩

/-- C10: given that the pool-list command succeeded with output `out`.  When
the pool is listed, `ensurePoolImported` returns `nil` in the world the list
command left: it runs nothing else.  Otherwise it runs exactly one more
command, `zpool import -N` of that pool, and returns `nil` when that command
succeeds and its error, wrapped, when it fails.  Listed means that a trimmed
line of the trimmed output is the pool name exactly; for a non-empty pool
name that is the same as a trimmed line of the output itself being the
name. -/
theorem ensurePoolImported_idempotent (env : Env) (ctx : Context) (pool : String) (w : World)
    (out : String)
    (hlist : (runCmdOutput env ctx "zpool" ["list", "-H", "-o", "name"] w).1 = (out, none)) :
    (PoolListed pool out →
      ensurePoolImported env ctx pool w =
        (none, (runCmdOutput env ctx "zpool" ["list", "-H", "-o", "name"] w).2)) ∧
    (¬ PoolListed pool out →
      ∃ e, (ensurePoolImported env ctx pool w).2.trace =
          (runCmdOutput env ctx "zpool" ["list", "-H", "-o", "name"] w).2.trace ++ [e] ∧
        e.call = .exec "zpool" ["import", "-N", pool] ∧
        (ensurePoolImported env ctx pool w).1 =
          e.err.map (fun m => "zpool import -N " ++ pool ++ " failed: " ++ m)) ∧
    (pool ≠ "" → (PoolListed pool out ↔ HasLine pool.data out.data)) := by
  have h1 : (runCmdOutput env ctx "zpool" ["list", "-H", "-o", "name"] w).1.2 = none := by
    rw [hlist]
  have h2 : (runCmdOutput env ctx "zpool" ["list", "-H", "-o", "name"] w).1.1 = out := by
    rw [hlist]
  refine ⟨?_, ?_, ?_⟩
  · intro hl
    have := (any_line_iff pool _).mpr hl
    simp only [ensurePoolImported, h1, h2, this, if_true]
  · intro hl
    have hany : (splitLines (trimChars out.data)).any
        (fun line => trimChars line == pool.data) = false := by
      rw [Bool.eq_false_iff]
      exact fun h => hl ((any_line_iff pool _).mp h)
    obtain ⟨e, he, hc, herr, -⟩ := runCmd_event env ctx "zpool" ["import", "-N", pool]
      (runCmdOutput env ctx "zpool" ["list", "-H", "-o", "name"] w).2
    refine ⟨e, ?_, hc, ?_⟩
    · simp only [ensurePoolImported, h1, h2, hany, Bool.false_eq_true, if_false]
      split <;> exact he
    · simp only [ensurePoolImported, h1, h2, hany, Bool.false_eq_true, if_false]
      rw [herr]
      split
      · rename_i m hm
        rw [hm]; rfl
      · rename_i hm
        rw [hm]; rfl
  · intro hp
    have hne : pool.data ≠ [] := by
      intro h
      apply hp
      cases pool
      simp only at h
      rw [h]
    exact hasLine_trimChars hne out.data

theorem ensurePoolImported_idempotent_witness :
    (ensurePoolImported envAllGood ⟨100⟩ "tank" emptyWorld =
        (none, (runCmdOutput envAllGood ⟨100⟩ "zpool" ["list", "-H", "-o", "name"]
          emptyWorld).2)) ∧
    (∃ e, (ensurePoolImported envOtherPools ⟨100⟩ "tank" emptyWorld).2.trace =
          (runCmdOutput envOtherPools ⟨100⟩ "zpool" ["list", "-H", "-o", "name"]
            emptyWorld).2.trace ++ [e] ∧
        e.call = .exec "zpool" ["import", "-N", "tank"] ∧
        (ensurePoolImported envOtherPools ⟨100⟩ "tank" emptyWorld).1 =
          e.err.map (fun m => "zpool import -N " ++ "tank" ++ " failed: " ++ m)) ∧
    (PoolListed "mytank" "tank2\n  mytank \n" ↔
      HasLine "mytank".data "tank2\n  mytank \n".data) :=
  ⟨(ensurePoolImported_idempotent envAllGood ⟨100⟩ "tank" emptyWorld "tank\n" rfl).1
      (by decide),
   (ensurePoolImported_idempotent envOtherPools ⟨100⟩ "tank" emptyWorld
      "tank2\n  mytank \n" rfl).2.1 (by decide),
   (ensurePoolImported_idempotent envOtherPools ⟨100⟩ "mytank" emptyWorld
      "tank2\n  mytank \n" rfl).2.2 (by decide)⟩

end ZfsAutoUnlock
